import Mathlib

/-!
Verification of the tree-packing optimizer (`sa_v1_parallel.cpp` and
`single_group_optimizer.cpp`) against its natural-language specification.

Modelling conventions, used throughout:

* C++ `double` / `long double` arithmetic is idealized as exact rational
  arithmetic (`ℚ`).  The transcendental library calls (`cos`, `sin`, `sqrt`,
  `exp`, `pow`) have no exact rational counterpart, so they are supplied by an
  oracle structure `Ops`; theorems that need a property of the real functions
  (for example `cos² + sin² = 1`, or that `sqrt` is exact at a particular
  argument) take that property as an explicit hypothesis, and witnesses
  instantiate the oracle at arguments where the property holds exactly.
* The thread-local Mersenne-Twister RNG is idealized as an oracle stream
  (`Rng`): one stream of raw integer draws (`rng() % n`) and one stream of
  `U(0,1)` draws, with explicit consumption counters threaded through the
  state, mirroring the exact draw order and the short-circuit behaviour of the
  C++ code.  Reseeding (`rng.seed(seed)`) is modelled by a family of streams
  indexed by the seed.  All claims proved here are universally quantified over
  the streams, hence hold in particular for the concrete generator.
* C arrays indexed `0..MAX_N` become total functions `ℕ → _`; the code only
  ever reads indices below `n`, and updates are `Function.update`.
* `fmod` is translated as exact truncated-toward-zero remainder, matching the
  C semantics on exact inputs.
-/

namespace Santa

/-- Oracle for the transcendental `libm` functions used by the C++ code. -/
structure Ops where
  cos : ℚ → ℚ
  sin : ℚ → ℚ
  sqrt : ℚ → ℚ
  exp : ℚ → ℚ
  pow : ℚ → ℚ → ℚ

/-- Oracle for the RNG: `ints k` is the `k`-th raw draw used through
`ri(n) = rng() % n`, and `rats k` the `k`-th `U(0,1)` draw from `rf()`. -/
structure Rng where
  ints : ℕ → ℕ
  rats : ℕ → ℚ

/-- A family of RNG streams indexed by the seed, modelling `rng.seed(s)`. -/
abbrev RngFam := ℕ → Rng

/-- The literal `PI` constant of the source. -/
def srcPI : ℚ := 3.14159265358979323846

/-- `TX` table: canonical x-coordinates of the 15-vertex tree template. -/
def TX : ℕ → ℚ := fun i =>
  [0, 0.125, 0.0625, 0.2, 0.1, 0.35, 0.075, 0.075, -0.075, -0.075, -0.35,
   -0.1, -0.2, -0.0625, -0.125].getD i 0

/-- `TY` table: canonical y-coordinates of the 15-vertex tree template. -/
def TY : ℕ → ℚ := fun i =>
  [0.8, 0.5, 0.5, 0.25, 0.25, 0, 0, -0.2, -0.2, 0, 0, 0.25, 0.25, 0.5,
   0.5].getD i 0

/-- 2-D point (`struct Pt`). -/
structure Pt where
  x : ℚ
  y : ℚ
deriving DecidableEq

/-- `struct Poly`: 15 vertices plus the cached axis-aligned bounding box. -/
structure Poly where
  p : ℕ → Pt
  x0 : ℚ
  y0 : ℚ
  x1 : ℚ
  y1 : ℚ

/-- Rotation by (cosine `co`, sine `si`) followed by translation `(cx, cy)`;
this is the per-vertex computation inside `getPoly`. -/
def rotPt (co si cx cy : ℚ) (t : Pt) : Pt :=
  ⟨t.x * co - t.y * si + cx, t.x * si + t.y * co + cy⟩

/-- `getPoly(cx, cy, deg)`: instantiate the template at a pose and compute the
bounding box (`Poly::bbox`, which starts from vertex 0 and folds vertices
1..14). -/
def getPoly (ops : Ops) (cx cy deg : ℚ) : Poly :=
  let r := deg * srcPI / 180
  let co := ops.cos r
  let si := ops.sin r
  let P : ℕ → Pt := fun i => rotPt co si cx cy ⟨TX i, TY i⟩
  { p := P
    x0 := ((List.range 15).drop 1).foldl (fun m i => min m (P i).x) (P 0).x
    x1 := ((List.range 15).drop 1).foldl (fun m i => max m (P i).x) (P 0).x
    y0 := ((List.range 15).drop 1).foldl (fun m i => min m (P i).y) (P 0).y
    y1 := ((List.range 15).drop 1).foldl (fun m i => max m (P i).y) (P 0).y }

/-- `pip(px, py, q)`: even-odd crossing-number point-in-polygon test. -/
def pip (px py : ℚ) (q : Poly) : Bool :=
  ((List.range 15).foldl
    (fun (acc : Bool × ℕ) i =>
      let j := acc.2
      if (decide ((q.p i).y > py) != decide ((q.p j).y > py)) &&
          decide (px <
            ((q.p j).x - (q.p i).x) * (py - (q.p i).y) / ((q.p j).y - (q.p i).y)
              + (q.p i).x) then
        (!acc.1, i)
      else
        (acc.1, i))
    (false, 14)).1

/-- The strict CCW orientation test used by `segInt`. -/
def ccwB (p q r : Pt) : Bool :=
  decide ((r.y - p.y) * (q.x - p.x) > (q.y - p.y) * (r.x - p.x))

/-- `segInt(a, b, c, d)`: proper segment crossing test. -/
def segInt (a b c d : Pt) : Bool :=
  (ccwB a c d != ccwB b c d) && (ccwB a b c != ccwB a b d)

/-- `overlap(a, b)`: bbox rejection, then vertex-in-polygon tests, then
edge-edge crossings. -/
def overlap (a b : Poly) : Bool :=
  if a.x1 < b.x0 ∨ b.x1 < a.x0 ∨ a.y1 < b.y0 ∨ b.y1 < a.y0 then false
  else
    ((List.range 15).any fun i =>
      pip (a.p i).x (a.p i).y b || pip (b.p i).x (b.p i).y a) ||
    ((List.range 15).any fun i => (List.range 15).any fun j =>
      segInt (a.p i) (a.p ((i + 1) % 15)) (b.p j) (b.p ((j + 1) % 15)))

/-- `struct Cfg`: pose arrays plus cached polygons. -/
@[ext]
structure Cfg where
  n : ℕ
  x : ℕ → ℚ
  y : ℕ → ℚ
  a : ℕ → ℚ
  pl : ℕ → Poly

/-- The all-zero `Poly`, standing for the indeterminate default value of the
C++ `Poly pl[MAX_N]` member before `upd`. -/
def defaultPoly : Poly := ⟨fun _ => ⟨0, 0⟩, 0, 0, 0, 0⟩

/-- A freshly value-initialized `Cfg` with `n` polygons (`Cfg c; c.n = n;`). -/
def emptyCfg (n : ℕ) : Cfg :=
  ⟨n, fun _ => 0, fun _ => 0, fun _ => 0, fun _ => defaultPoly⟩

/-- Write pose coordinate `x[i]`. -/
def Cfg.setX (c : Cfg) (i : ℕ) (v : ℚ) : Cfg :=
  { c with x := Function.update c.x i v }

/-- Write pose coordinate `y[i]`. -/
def Cfg.setY (c : Cfg) (i : ℕ) (v : ℚ) : Cfg :=
  { c with y := Function.update c.y i v }

/-- Write pose angle `a[i]`. -/
def Cfg.setA (c : Cfg) (i : ℕ) (v : ℚ) : Cfg :=
  { c with a := Function.update c.a i v }

/-- `Cfg::upd(i)`: rebuild the cached polygon `pl[i]` from pose `i`. -/
def Cfg.upd (c : Cfg) (ops : Ops) (i : ℕ) : Cfg :=
  { c with pl := Function.update c.pl i (getPoly ops (c.x i) (c.y i) (c.a i)) }

/-- `Cfg::updAll()`. -/
def Cfg.updAll (c : Cfg) (ops : Ops) : Cfg :=
  (List.range c.n).foldl (fun c i => c.upd ops i) c

/-- `Cfg::hasOvl(i)`. -/
def Cfg.hasOvl (c : Cfg) (i : ℕ) : Bool :=
  (List.range c.n).any fun j => decide (i ≠ j) && overlap (c.pl i) (c.pl j)

/-- `Cfg::hasOvlPair(i, j)`. -/
def Cfg.hasOvlPair (c : Cfg) (i j : ℕ) : Bool :=
  overlap (c.pl i) (c.pl j) ||
    ((List.range c.n).any fun k =>
      decide (k ≠ i) && decide (k ≠ j) &&
        (overlap (c.pl i) (c.pl k) || overlap (c.pl j) (c.pl k)))

/-- `Cfg::anyOvl()`. -/
def Cfg.anyOvl (c : Cfg) : Bool :=
  (List.range c.n).any fun i => (List.range c.n).any fun j =>
    decide (i < j) && overlap (c.pl i) (c.pl j)

/-- `Cfg::getBBox()` (no guard for `n = 0`, like the source). -/
def Cfg.getBBoxQ (c : Cfg) : ℚ × ℚ × ℚ × ℚ :=
  ((List.range c.n).drop 1).foldl
    (fun (g : ℚ × ℚ × ℚ × ℚ) i =>
      (min g.1 (c.pl i).x0, min g.2.1 (c.pl i).y0,
       max g.2.2.1 (c.pl i).x1, max g.2.2.2 (c.pl i).y1))
    ((c.pl 0).x0, (c.pl 0).y0, (c.pl 0).x1, (c.pl 0).y1)

/-- `Cfg::side()`. -/
def Cfg.side (c : Cfg) : ℚ :=
  if c.n = 0 then 0
  else
    let g := c.getBBoxQ
    max (g.2.2.1 - g.1) (g.2.2.2 - g.2.1)

/-- `Cfg::score()`. -/
def Cfg.score (c : Cfg) : ℚ := c.side * c.side / (c.n : ℚ)

/-- `Cfg::centroid()`. -/
def Cfg.centroid (c : Cfg) : ℚ × ℚ :=
  let s := (List.range c.n).foldl
    (fun (s : ℚ × ℚ) i => (s.1 + c.x i, s.2 + c.y i)) (0, 0)
  (s.1 / (c.n : ℚ), s.2 / (c.n : ℚ))

/-- `Cfg::findCornerTrees()`. -/
def Cfg.findCornerTrees (c : Cfg) : List ℕ :=
  let g := c.getBBoxQ
  (List.range c.n).filter fun i =>
    decide (|(c.pl i).x0 - g.1| < 0.01) || decide (|(c.pl i).x1 - g.2.2.1| < 0.01) ||
    decide (|(c.pl i).y0 - g.2.1| < 0.01) || decide (|(c.pl i).y1 - g.2.2.2| < 0.01)

/-- The derived-state invariant of §3 of the spec: each cached polygon is
consistent with its pose. -/
def Consistent (ops : Ops) (c : Cfg) : Prop :=
  ∀ i, c.pl i = getPoly ops (c.x i) (c.y i) (c.a i)

/-- Truncation toward zero, as C's `fmod` truncates the quotient. -/
def ratTrunc (x : ℚ) : ℤ := if 0 ≤ x then ⌊x⌋ else ⌈x⌉

/-- Exact translation of `fmod(x, y)` for exact inputs. -/
def fmodQ (x y : ℚ) : ℚ := x - (ratTrunc (x / y) : ℚ) * y

/-! ### The SA engine `sa_v3` -/

/-- Result of the tentative-move phase of one SA iteration: the (kept or
reverted) current configuration, whether the move survived its incident
feasibility check (`ok = false` is the `continue` path), and the RNG
counters. -/
structure MoveOut where
  cur : Cfg
  ok : Bool
  ki : ℕ
  kr : ℕ

/-- The `moveType < 4` branch of `sa_v3` (single-polygon moves 0..3). -/
def moveSingle (ops : Ops) (rng : Rng) (n mt : ℕ) (ms rs sc : ℚ) (cur : Cfg)
    (ki kr : ℕ) : MoveOut :=
  let i := rng.ints ki % n
  let ki := ki + 1
  let ox := cur.x i
  let oy := cur.y i
  let oa := cur.a i
  let cen := cur.centroid
  let step1 : Cfg × ℕ :=
    if mt = 0 then
      ((cur.setX i (ox + (rng.rats kr - 0.5) * 2 * ms * sc)).setY i
        (oy + (rng.rats (kr + 1) - 0.5) * 2 * ms * sc), kr + 2)
    else if mt = 1 then
      let dx := cen.1 - ox
      let dy := cen.2 - oy
      let d := ops.sqrt (dx * dx + dy * dy)
      if d > 1e-6 then
        let st := rng.rats kr * ms * sc
        ((cur.setX i (ox + dx / d * st)).setY i (oy + dy / d * st), kr + 1)
      else (cur, kr)
    else if mt = 2 then
      (cur.setA i (fmodQ ((oa + (rng.rats kr - 0.5) * 2 * rs * sc) + 360) 360),
        kr + 1)
    else
      (((cur.setX i (ox + (rng.rats kr - 0.5) * ms * sc)).setY i
          (oy + (rng.rats (kr + 1) - 0.5) * ms * sc)).setA i
          (fmodQ ((oa + (rng.rats (kr + 2) - 0.5) * rs * sc) + 360) 360),
        kr + 3)
  let c1 := step1.1.upd ops i
  if c1.hasOvl i then
    ⟨(((c1.setX i ox).setY i oy).setA i oa).upd ops i, false, ki, step1.2⟩
  else ⟨c1, true, ki, step1.2⟩

/-- The `while (j == i) j = ri(c.n);` redraw loop of the swap move.  The C++
loop is unbounded; it is modelled with a large fuel, which only differs from
the source on adversarial streams that return `i` a million times in a row
(irrelevant here: every claim is proved for every resulting `j`). -/
def drawDistinct (rng : Rng) (n i : ℕ) : ℕ → ℕ → ℕ × ℕ
  | 0, k => (i, k)
  | fuel + 1, k =>
    let j := rng.ints k % n
    if j = i then drawDistinct rng n i fuel (k + 1) else (j, k + 1)

/-- The `moveType == 4 && c.n > 1` branch of `sa_v3` (position swap). -/
def moveSwap (ops : Ops) (rng : Rng) (n : ℕ) (cur : Cfg) (ki kr : ℕ) :
    MoveOut :=
  let i := rng.ints ki % n
  let jk := drawDistinct rng n i 1000000 (ki + 1)
  let j := jk.1
  let ki := jk.2
  let oxi := cur.x i
  let oyi := cur.y i
  let oxj := cur.x j
  let oyj := cur.y j
  let c1 :=
    (((((cur.setX i oxj).setY i oyj).setX j oxi).setY j oyi).upd ops i).upd
      ops j
  if c1.hasOvlPair i j then
    ⟨(((((c1.setX i oxi).setY i oyi).setX j oxj).setY j oyj).upd ops i).upd
        ops j, false, ki, kr⟩
  else ⟨c1, true, ki, kr⟩

/-- The `moveType == 5` branch of `sa_v3` (nudge toward bbox center). -/
def moveBBox (ops : Ops) (rng : Rng) (n : ℕ) (ms sc : ℚ) (cur : Cfg)
    (ki kr : ℕ) : MoveOut :=
  let i := rng.ints ki % n
  let ki := ki + 1
  let ox := cur.x i
  let oy := cur.y i
  let g := cur.getBBoxQ
  let bcx := (g.1 + g.2.2.1) / 2
  let bcy := (g.2.1 + g.2.2.2) / 2
  let dx := bcx - ox
  let dy := bcy - oy
  let d := ops.sqrt (dx * dx + dy * dy)
  let step1 : Cfg × ℕ :=
    if d > 1e-6 then
      let st := rng.rats kr * ms * sc * 0.5
      ((cur.setX i (ox + dx / d * st)).setY i (oy + dy / d * st), kr + 1)
    else (cur, kr)
  let c1 := step1.1.upd ops i
  if c1.hasOvl i then
    ⟨((c1.setX i ox).setY i oy).upd ops i, false, ki, step1.2⟩
  else ⟨c1, true, ki, step1.2⟩

/-- The `moveType == 6` branch of `sa_v3` (corner-polygon move; an empty
corner list is the `noImp++; continue` path, reported as `ok = false` with the
configuration untouched). -/
def moveCorner (ops : Ops) (rng : Rng) (ms rs sc : ℚ) (cur : Cfg)
    (ki kr : ℕ) : MoveOut :=
  let corners := cur.findCornerTrees
  if corners.isEmpty then ⟨cur, false, ki, kr⟩
  else
    let idx := corners.getD (rng.ints ki % corners.length) 0
    let ki := ki + 1
    let ox := cur.x idx
    let oy := cur.y idx
    let oa := cur.a idx
    let g := cur.getBBoxQ
    let bcx := (g.1 + g.2.2.1) / 2
    let bcy := (g.2.1 + g.2.2.2) / 2
    let dx := bcx - ox
    let dy := bcy - oy
    let d := ops.sqrt (dx * dx + dy * dy)
    let step1 : Cfg × ℕ :=
      if d > 1e-6 then
        let st := rng.rats kr * ms * sc * 0.3
        (((cur.setX idx (ox + dx / d * st)).setY idx (oy + dy / d * st)).setA
            idx (fmodQ ((oa + (rng.rats (kr + 1) - 0.5) * rs * sc * 0.5) + 360)
              360), kr + 2)
      else (cur, kr)
    let c1 := step1.1.upd ops idx
    if c1.hasOvl idx then
      ⟨(((c1.setX idx ox).setY idx oy).setA idx oa).upd ops idx, false, ki,
        step1.2⟩
    else ⟨c1, true, ki, step1.2⟩

/-- The final `else` branch of `sa_v3` (joint move of `i` and
`j = (i+1) mod n`); the compound `+=` reads go through the running
configuration, so for `i = j` the displacement accumulates twice. -/
def moveJoint (ops : Ops) (rng : Rng) (n : ℕ) (ms sc : ℚ) (cur : Cfg)
    (ki kr : ℕ) : MoveOut :=
  let i := rng.ints ki % n
  let ki := ki + 1
  let j := (i + 1) % n
  let oxi := cur.x i
  let oyi := cur.y i
  let oxj := cur.x j
  let oyj := cur.y j
  let dx := (rng.rats kr - 0.5) * ms * sc * 0.5
  let dy := (rng.rats (kr + 1) - 0.5) * ms * sc * 0.5
  let kr := kr + 2
  let u1 := cur.setX i (cur.x i + dx)
  let u2 := u1.setY i (u1.y i + dy)
  let u3 := u2.setX j (u2.x j + dx)
  let u4 := u3.setY j (u3.y j + dy)
  let c1 := (u4.upd ops i).upd ops j
  if c1.hasOvlPair i j then
    ⟨(((((c1.setX i oxi).setY i oyi).setX j oxj).setY j oyj).upd ops i).upd
        ops j, false, ki, kr⟩
  else ⟨c1, true, ki, kr⟩

/-- Dispatch on `moveType = ri(8)`; mirrors the `if`/`else if` chain of
`sa_v3`, including the fall-through of `moveType == 4` with `n ≤ 1` into the
joint-move branch. -/
def movePhase (ops : Ops) (rng : Rng) (n : ℕ) (ms rs sc : ℚ) (cur : Cfg)
    (ki kr : ℕ) : MoveOut :=
  let mt := rng.ints ki % 8
  let ki := ki + 1
  if mt < 4 then moveSingle ops rng n mt ms rs sc cur ki kr
  else if mt = 4 ∧ 1 < n then moveSwap ops rng n cur ki kr
  else if mt = 5 then moveBBox ops rng n ms sc cur ki kr
  else if mt = 6 then moveCorner ops rng ms rs sc cur ki kr
  else moveJoint ops rng n ms sc cur ki kr

/-- Output of the Metropolis accept/reject block (lines 284–299 of
`sa_v1_parallel.cpp`). -/
structure MOut where
  cur : Cfg
  best : Cfg
  bs : ℚ
  cs : ℚ
  noImp : ℕ

/-- The Metropolis accept/reject block: accept if `delta < 0` or
`u < exp(-delta/T)`; on rejection restore `cur` from `best` and `cs` from
`bs`. -/
def mStep (ops : Ops) (cur best : Cfg) (bs cs ns T : ℚ) (noImp : ℕ)
    (u : ℚ) : MOut :=
  let delta := ns - cs
  if delta < 0 ∨ u < ops.exp (-delta / T) then
    if ns < bs then ⟨cur, cur, ns, ns, 0⟩ else ⟨cur, best, bs, ns, noImp + 1⟩
  else ⟨best, best, bs, bs, noImp + 1⟩

/-- The `noImp > 600` reheat. -/
def reheat (T0 T : ℚ) (noImp : ℕ) : ℚ × ℕ :=
  if noImp > 600 then (min (T * 3) (T0 * 0.7), 0) else (T, noImp)

/-- End-of-step cooling `T *= alpha; if (T < Tm) T = Tm;`. -/
def coolT (alpha Tm T : ℚ) : ℚ :=
  let T2 := T * alpha
  if T2 < Tm then Tm else T2

/-- Full loop state of `sa_v3`, with RNG consumption counters. -/
structure SAState where
  cur : Cfg
  best : Cfg
  bs : ℚ
  cs : ℚ
  T : ℚ
  noImp : ℕ
  ki : ℕ
  kr : ℕ

/-- One iteration of the `sa_v3` loop.  A failed incident-feasibility check is
the `continue` path: increment `noImp`, cool, and skip the Metropolis block
and the reheat.  On the feasible path the `u` draw is consumed only when
`delta ≥ 0`, matching the C++ short-circuit `delta < 0 || rf() < …`. -/
def saStep (ops : Ops) (rng : Rng) (n : ℕ) (T0 Tm ms rs alpha : ℚ)
    (s : SAState) : SAState :=
  let sc := s.T / T0
  let m := movePhase ops rng n ms rs sc s.cur s.ki s.kr
  if m.ok then
    let ns := m.cur.side
    let delta := ns - s.cs
    let u := rng.rats m.kr
    let kr2 := if delta < 0 then m.kr else m.kr + 1
    let r := mStep ops m.cur s.best s.bs s.cs ns s.T s.noImp u
    let h := reheat T0 s.T r.noImp
    ⟨r.cur, r.best, r.bs, r.cs, coolT alpha Tm h.1, h.2, m.ki, kr2⟩
  else ⟨m.cur, s.best, s.bs, s.cs, coolT alpha Tm s.T, s.noImp + 1, m.ki, m.kr⟩

/-- Iterate `saStep`. -/
def saLoop (ops : Ops) (rng : Rng) (n : ℕ) (T0 Tm ms rs alpha : ℚ) :
    ℕ → SAState → SAState
  | 0, s => s
  | k + 1, s =>
    saLoop ops rng n T0 Tm ms rs alpha k (saStep ops rng n T0 Tm ms rs alpha s)

/-- `sa_v3(c, iter, T0, Tm, ms, rs, seed)`: reseed, cool geometrically with
`alpha = (Tm/T0)^(1/iter)`, run `iter` steps, return the best configuration
seen. -/
def sa_v3 (ops : Ops) (fam : RngFam) (c : Cfg) (iter : ℕ) (T0 Tm ms rs : ℚ)
    (seed : ℕ) : Cfg :=
  let rng := fam seed
  let alpha := ops.pow (Tm / T0) (1 / (iter : ℚ))
  (saLoop ops rng c.n T0 Tm ms rs alpha iter
    ⟨c, c, c.side, c.side, T0, 0, 0, 0⟩).best

/-! ### Local search `ls_v3` -/

/-- Position step table `ps` of `ls_v3`. -/
def lsPs : List ℚ := [0.02, 0.01, 0.005, 0.002, 0.001, 0.0005, 0.0002]

/-- Angle step table `rs` of `ls_v3`. -/
def lsRsteps : List ℚ := [15.0, 10.0, 5.0, 2.0, 1.0, 0.5, 0.25]

/-- Direction table `dx` of `ls_v3`. -/
def lsDx : List ℤ := [1, -1, 0, 0, 1, 1, -1, -1]

/-- Direction table `dy` of `ls_v3`. -/
def lsDy : List ℤ := [0, 0, 1, -1, 1, -1, 1, -1]

/-- One tentative translation of `ls_v3`: keep only if feasible and strictly
improving beyond `1e-10`, else revert pose and polygon. -/
def lsTryTrans (ops : Ops) (i : ℕ) (dx dy : ℚ) (st : Cfg × ℚ × Bool) :
    Cfg × ℚ × Bool :=
  let best := st.1
  let bs := st.2.1
  let imp := st.2.2
  let ox := best.x i
  let oy := best.y i
  let b1 := ((best.setX i (ox + dx)).setY i (oy + dy)).upd ops i
  if b1.hasOvl i then (((b1.setX i ox).setY i oy).upd ops i, bs, imp)
  else
    let ns := b1.side
    if ns < bs - 1e-10 then (b1, ns, true)
    else (((b1.setX i ox).setY i oy).upd ops i, bs, imp)

/-- One tentative rotation of `ls_v3`. -/
def lsTryRot (ops : Ops) (i : ℕ) (da : ℚ) (st : Cfg × ℚ × Bool) :
    Cfg × ℚ × Bool :=
  let best := st.1
  let bs := st.2.1
  let imp := st.2.2
  let oa := best.a i
  let b1 := (best.setA i (fmodQ (best.a i + da + 360) 360)).upd ops i
  if b1.hasOvl i then ((b1.setA i oa).upd ops i, bs, imp)
  else
    let ns := b1.side
    if ns < bs - 1e-10 then (b1, ns, true)
    else ((b1.setA i oa).upd ops i, bs, imp)

/-- All translation and rotation attempts of `ls_v3` for one polygon. -/
def lsIndexSweep (ops : Ops) (i : ℕ) (st : Cfg × ℚ × Bool) :
    Cfg × ℚ × Bool :=
  let st1 := lsPs.foldl
    (fun acc stp =>
      (List.range 8).foldl
        (fun acc2 d =>
          lsTryTrans ops i (((lsDx.getD d 0 : ℤ) : ℚ) * stp)
            (((lsDy.getD d 0 : ℤ) : ℚ) * stp) acc2)
        acc)
    st
  lsRsteps.foldl
    (fun acc stp =>
      [stp, -stp].foldl (fun acc2 da => lsTryRot ops i da acc2) acc)
    st1

/-- One outer pass of `ls_v3`: corner polygons first (corner set computed at
the start of the pass), then all non-corner indices. -/
def lsPass (ops : Ops) (n : ℕ) (best : Cfg) (bs : ℚ) : Cfg × ℚ × Bool :=
  let corners := best.findCornerTrees
  let st1 := corners.foldl (fun acc ci => lsIndexSweep ops ci acc)
    (best, bs, false)
  (List.range n).foldl
    (fun acc i => if corners.contains i then acc else lsIndexSweep ops i acc)
    st1

/-- The outer loop of `ls_v3` with its `if (!imp) break`. -/
def lsLoop (ops : Ops) (n : ℕ) : ℕ → Cfg → ℚ → Cfg
  | 0, best, _ => best
  | it + 1, best, bs =>
    let r := lsPass ops n best bs
    if r.2.2 then lsLoop ops n it r.1 r.2.1 else r.1

/-- `ls_v3(c, iter)`. -/
def ls_v3 (ops : Ops) (c : Cfg) (iter : ℕ) : Cfg := lsLoop ops c.n iter c c.side

/-! ### Fractional translation -/

/-- Step table `frac_steps` of `fractional_translation`. -/
def ftSteps : List ℚ :=
  [0.001, 0.0005, 0.0002, 0.0001, 0.00005, 0.00002, 0.00001]

/-- Direction table `dx` of `fractional_translation`. -/
def ftDx : List ℚ := [0, 0, 1, -1, 1, 1, -1, -1]

/-- Direction table `dy` of `fractional_translation`. -/
def ftDy : List ℚ := [1, -1, 0, 0, 1, -1, 1, -1]

/-- One tentative translation of `fractional_translation` (tolerance
`1e-12`). -/
def ftTryTrans (ops : Ops) (i : ℕ) (dx dy : ℚ) (st : Cfg × ℚ × Bool) :
    Cfg × ℚ × Bool :=
  let best := st.1
  let bs := st.2.1
  let imp := st.2.2
  let ox := best.x i
  let oy := best.y i
  let b1 := ((best.setX i (ox + dx)).setY i (oy + dy)).upd ops i
  if b1.hasOvl i then (((b1.setX i ox).setY i oy).upd ops i, bs, imp)
  else
    let ns := b1.side
    if ns < bs - 1e-12 then (b1, ns, true)
    else (((b1.setX i ox).setY i oy).upd ops i, bs, imp)

/-- All attempts of `fractional_translation` for one polygon. -/
def ftIndexSweep (ops : Ops) (i : ℕ) (st : Cfg × ℚ × Bool) :
    Cfg × ℚ × Bool :=
  ftSteps.foldl
    (fun acc stp =>
      (List.range 8).foldl
        (fun acc2 d =>
          ftTryTrans ops i (ftDx.getD d 0 * stp) (ftDy.getD d 0 * stp) acc2)
        acc)
    st

/-- One outer pass of `fractional_translation` over all polygons. -/
def ftPass (ops : Ops) (n : ℕ) (best : Cfg) (bs : ℚ) : Cfg × ℚ × Bool :=
  (List.range n).foldl (fun acc i => ftIndexSweep ops i acc) (best, bs, false)

/-- The outer loop of `fractional_translation`. -/
def ftLoop (ops : Ops) (n : ℕ) : ℕ → Cfg → ℚ → Cfg
  | 0, best, _ => best
  | it + 1, best, bs =>
    let r := ftPass ops n best bs
    if r.2.2 then ftLoop ops n it r.1 r.2.1 else r.1

/-- `fractional_translation(c, max_iter)`. -/
def fractional_translation (ops : Ops) (c : Cfg) (max_iter : ℕ) : Cfg :=
  ftLoop ops c.n max_iter c c.side

/-! ### `scale_cfg`, `resolve_overlaps`, `compress_cfg`, `random_init_cfg` -/

/-- `scale_cfg(c, factor)`. -/
def scale_cfg (ops : Ops) (c : Cfg) (factor : ℚ) : Cfg :=
  (List.range c.n).foldl
    (fun c i => ((c.setX i (c.x i * factor)).setY i (c.y i * factor)).upd ops i)
    c

/-- Processing of one pair `(i, j)` inside a `resolve_overlaps` pass: skip if
not overlapping, otherwise push the two polygons apart by `stp` along the unit
vector from `j` to `i` (random unit vector with `d` forced to 1 when the
centers are closer than `1e-6`). -/
def resolvePairStep (ops : Ops) (rng : Rng) (stp : ℚ) (st : Cfg × Bool × ℕ)
    (i j : ℕ) : Cfg × Bool × ℕ :=
  let c := st.1
  if overlap (c.pl i) (c.pl j) then
    let kr := st.2.2
    let dx0 := c.x i - c.x j
    let dy0 := c.y i - c.y j
    let d0 := ops.sqrt (dx0 * dx0 + dy0 * dy0)
    let t : ℚ × ℚ × ℚ × ℕ :=
      if d0 < 1e-6 then
        let ang := rng.rats kr * 2 * srcPI
        (ops.cos ang, ops.sin ang, 1, kr + 1)
      else (dx0, dy0, d0, kr)
    let ux := t.1 / t.2.2.1
    let uy := t.2.1 / t.2.2.1
    let u1 := c.setX i (c.x i + ux * stp)
    let u2 := u1.setY i (u1.y i + uy * stp)
    let u3 := u2.setX j (u2.x j - ux * stp)
    let u4 := u3.setY j (u3.y j - uy * stp)
    ((u4.upd ops i).upd ops j, true, t.2.2.2)
  else st

/-- One full pass of `resolve_overlaps` over all pairs `i < j`. -/
def resolvePass (ops : Ops) (rng : Rng) (stp : ℚ) (n : ℕ) (c : Cfg)
    (kr : ℕ) : Cfg × Bool × ℕ :=
  (List.range n).foldl
    (fun acc i =>
      (List.range n).foldl
        (fun acc2 j =>
          if i < j then resolvePairStep ops rng stp acc2 i j else acc2)
        acc)
    (c, false, kr)

/-- The pass loop of `resolve_overlaps`: early `return true` when a pass finds
no overlap, final `return !c.anyOvl()` after `max_iter` passes. -/
def resolveLoop (ops : Ops) (rng : Rng) (stp : ℚ) (n : ℕ) :
    ℕ → Cfg → ℕ → Bool × Cfg
  | 0, c, _ => (!c.anyOvl, c)
  | t + 1, c, kr =>
    let r := resolvePass ops rng stp n c kr
    if r.2.1 then resolveLoop ops rng stp n t r.1 r.2.2 else (true, r.1)

/-- `resolve_overlaps(c, max_iter, step, seed)` (the C++ mutates `c` by
reference and returns a `bool`; here both are returned). -/
def resolve_overlaps (ops : Ops) (fam : RngFam) (c : Cfg) (max_iter : ℕ)
    (stp : ℚ) (seed : ℕ) : Bool × Cfg :=
  resolveLoop ops (fam seed) stp c.n max_iter c 0

/-- The compression loop of `compress_cfg`: scale about the origin, then
relax; stop at the first failed relaxation and keep the previous best. -/
def compressLoop (ops : Ops) (fam : RngFam) (factor : ℚ) (relax_iters : ℕ)
    (relax_stp : ℚ) (seed : ℕ) : ℕ → ℕ → Cfg → Cfg
  | 0, _, best => best
  | s + 1, sIdx, best =>
    let cand := scale_cfg ops best factor
    let r := resolve_overlaps ops fam cand relax_iters relax_stp
      (seed + sIdx * 1337)
    if r.1 then
      compressLoop ops fam factor relax_iters relax_stp seed s (sIdx + 1) r.2
    else best

/-- `compress_cfg(c, steps, factor, relax_iters, relax_step, seed)`; `steps`
is a C `int`, hence `ℤ`. -/
def compress_cfg (ops : Ops) (fam : RngFam) (c : Cfg) (steps : ℤ)
    (factor : ℚ) (relax_iters : ℕ) (relax_stp : ℚ) (seed : ℕ) : Cfg :=
  if steps ≤ 0 ∨ 1 ≤ factor then c
  else compressLoop ops fam factor relax_iters relax_stp seed steps.toNat 0 c

/-- The per-polygon placement loop of `random_init_cfg`: up to `max_attempts`
random poses, accepted as soon as no overlap with an earlier polygon is
found. -/
def placeTry (ops : Ops) (rng : Rng) (half : ℚ) (i : ℕ) :
    ℕ → Cfg → ℕ → Option Cfg × ℕ
  | 0, _, kr => (none, kr)
  | t + 1, c0, kr =>
    let x := (rng.rats kr * 2 - 1) * half
    let y := (rng.rats (kr + 1) * 2 - 1) * half
    let a := rng.rats (kr + 2) * 360
    let kr := kr + 3
    let c1 := (((c0.setX i x).setY i y).setA i a).upd ops i
    let found := (List.range i).any fun j => overlap (c1.pl i) (c1.pl j)
    if found then placeTry ops rng half i t c1 kr else (some c1, kr)

/-- Sequential placement of all polygons of one attempt. -/
def placeAll (ops : Ops) (rng : Rng) (half : ℚ) (ma : ℕ) :
    List ℕ → Cfg → ℕ → Option Cfg × ℕ
  | [], c, kr => (some c, kr)
  | i :: rest, c, kr =>
    let r := placeTry ops rng half i ma c kr
    match r.1 with
    | some c1 => placeAll ops rng half ma rest c1 r.2
    | none => (none, r.2)

/-- The attempt loop of `random_init_cfg`, growing the scale by 1.08 after
each failed attempt. -/
def randLoop (ops : Ops) (rng : Rng) (n : ℕ) (base_side : ℚ) (ma : ℕ) :
    ℕ → ℚ → ℕ → Option Cfg
  | 0, _, _ => none
  | t + 1, scale, kr =>
    let half := base_side * scale * 0.5
    let r := placeAll ops rng half ma (List.range n) (emptyCfg n) kr
    match r.1 with
    | some c => some c
    | none => randLoop ops rng n base_side ma t (scale * 1.08) r.2

/-- `random_init_cfg(out, n, base_side, side_scale, tries, max_attempts,
seed)`; the C++ out-parameter-and-bool protocol becomes `Option Cfg`. -/
def random_init_cfg (ops : Ops) (fam : RngFam) (n : ℕ)
    (base_side side_scale : ℚ) (tries ma : ℕ) (seed : ℕ) : Option Cfg :=
  randLoop ops (fam seed) n base_side ma (max 1 tries) (max 1.01 side_scale) 0

/-! ### CSV loading (generation driver)

The claims about the loaders are about how parsed rows are assembled into
configurations, not about string lexing, so a data row is modelled after
lexing: group number `n` (from the three id digits), index `idx` (the id part
after the underscore), and the three numeric fields with any `s` prefix
already stripped. -/

/-- A lexed CSV data row `NNN_i,x,y,deg`. -/
structure Row where
  n : ℕ
  idx : ℕ
  x : ℚ
  y : ℚ
  deg : ℚ
deriving DecidableEq

/-- Application of one parsed row to a group-`g` configuration in the
generation driver's `loadCSV` (`if (i < n) { c.x[i] = x; … }`). -/
def applyRow (g : ℕ) (c : Cfg) (r : Row) : Cfg :=
  if r.idx < g then ((c.setX r.idx r.x).setY r.idx r.y).setA r.idx r.deg else c

/-- Assembly of one group in the generation driver's `loadCSV`: start from a
zero-initialized `Cfg` with `c.n = g`, write each row with `idx < g` in file
order, then `updAll`. -/
def buildCfg1 (ops : Ops) (g : ℕ) (rs : List Row) : Cfg :=
  (rs.foldl (applyRow g) (emptyCfg g)).updAll ops

/-- The generation driver's `loadCSV`, as the mapping from group number to
configuration (groups with no rows are absent). -/
def loadCSV (ops : Ops) (rows : List Row) : ℕ → Option Cfg := fun g =>
  let rs := rows.filter fun r => r.n = g
  if rs.isEmpty then none else some (buildCfg1 ops g rs)

end Santa

namespace SG

/-! Shallow embedding of `single_group_optimizer.cpp` (`long double`
arithmetic, likewise idealized as `ℚ` with an `Ops` oracle). -/

open Santa (Ops Rng srcPI TX TY fmodQ Row)

/-- `struct Tree`. -/
structure Tree where
  x : ℚ
  y : ℚ
  deg : ℚ
deriving DecidableEq

/-- `struct Poly` of the single-group optimizer. -/
structure SPoly where
  px : ℕ → ℚ
  py : ℕ → ℚ
  x0 : ℚ
  y0 : ℚ
  x1 : ℚ
  y1 : ℚ

/-- `getPoly` of the single-group optimizer (bbox accumulated from
`±1e9` sentinels over all 15 vertices). -/
def getPoly (ops : Ops) (cx cy deg : ℚ) : SPoly :=
  let rad := deg * (srcPI / 180)
  let s := ops.sin rad
  let co := ops.cos rad
  let X : ℕ → ℚ := fun i => TX i * co - TY i * s + cx
  let Y : ℕ → ℚ := fun i => TX i * s + TY i * co + cy
  let m := (List.range 15).foldl
    (fun (m : ℚ × ℚ × ℚ × ℚ) i =>
      (min m.1 (X i), min m.2.1 (Y i), max m.2.2.1 (X i), max m.2.2.2 (Y i)))
    (1e9, 1e9, -1e9, -1e9)
  ⟨X, Y, m.1, m.2.1, m.2.2.1, m.2.2.2⟩

/-- `pip` of the single-group optimizer. -/
def pip (px py : ℚ) (q : SPoly) : Bool :=
  ((List.range 15).foldl
    (fun (acc : Bool × ℕ) i =>
      let j := acc.2
      if (decide (q.py i > py) != decide (q.py j > py)) &&
          decide (px <
            (q.px j - q.px i) * (py - q.py i) / (q.py j - q.py i) + q.px i) then
        (!acc.1, i)
      else (acc.1, i))
    (false, 14)).1

/-- `cross`. -/
def cross (ax ay bx b2 cx cy : ℚ) : ℚ := (bx - ax) * (cy - ay) - (b2 - ay) * (cx - ax)

/-- `segInt` of the single-group optimizer (sign-based proper crossing). -/
def segInt (ax ay bx b2 cx cy dx dy : ℚ) : Bool :=
  let d1 := cross cx cy dx dy ax ay
  let d2 := cross cx cy dx dy bx b2
  let d3 := cross ax ay bx b2 cx cy
  let d4 := cross ax ay bx b2 dx dy
  decide (((d1 > 0 ∧ d2 < 0) ∨ (d1 < 0 ∧ d2 > 0)) ∧
    ((d3 > 0 ∧ d4 < 0) ∨ (d3 < 0 ∧ d4 > 0)))

/-- `polyIntersect`: bbox rejection, then all edge pairs, then the two
vertex-0 point-in-polygon tests. -/
def polyIntersect (a b : SPoly) : Bool :=
  if a.x1 < b.x0 ∨ b.x1 < a.x0 ∨ a.y1 < b.y0 ∨ b.y1 < a.y0 then false
  else
    ((List.range 15).any fun i => (List.range 15).any fun j =>
      segInt (a.px i) (a.py i) (a.px ((i + 1) % 15)) (a.py ((i + 1) % 15))
        (b.px j) (b.py j) (b.px ((j + 1) % 15)) (b.py ((j + 1) % 15))) ||
    (pip (a.px 0) (a.py 0) b || pip (b.px 0) (b.py 0) a)

/-- `struct Cfg` of the single-group optimizer. -/
structure Cfg where
  n : ℕ
  t : ℕ → Tree
  p : ℕ → SPoly

/-- Default-constructed `Poly` entries of a fresh `Cfg(n)` (the vectors are
value-initialized). -/
def defaultSPoly : SPoly := ⟨fun _ => 0, fun _ => 0, 0, 0, 0, 0⟩

/-- `Cfg::upd(i)`. -/
def Cfg.upd (c : Cfg) (ops : Ops) (i : ℕ) : Cfg :=
  { c with
    p := Function.update c.p i (getPoly ops (c.t i).x (c.t i).y (c.t i).deg) }

/-- `Cfg::updAll()`. -/
def Cfg.updAll (c : Cfg) (ops : Ops) : Cfg :=
  (List.range c.n).foldl (fun c i => c.upd ops i) c

/-- `Cfg::anyOvl()`. -/
def Cfg.anyOvl (c : Cfg) : Bool :=
  (List.range c.n).any fun i => (List.range c.n).any fun j =>
    decide (i < j) && polyIntersect (c.p i) (c.p j)

/-- `Cfg::score()` (accumulated from `±1e9` sentinels). -/
def Cfg.score (c : Cfg) : ℚ :=
  let m := (List.range c.n).foldl
    (fun (m : ℚ × ℚ × ℚ × ℚ) i =>
      (min m.1 (c.p i).x0, min m.2.1 (c.p i).y0,
       max m.2.2.1 (c.p i).x1, max m.2.2.2 (c.p i).y1))
    (1e9, 1e9, -1e9, -1e9)
  let s := max (m.2.2.1 - m.1) (m.2.2.2 - m.2.1)
  s * s / (c.n : ℚ)

/-- `clamp(v, lo, hi)`. -/
def clamp (v lo hi : ℚ) : ℚ := max lo (min hi v)

/-- `perturb(c, rng, move_scale, ang_scale)`: move one random polygon, with
both coordinates clamped into `[-100, 100]`. -/
def perturb (ops : Ops) (rng : Rng) (c : Cfg) (move_scale ang_scale : ℚ)
    (ki kr : ℕ) : Cfg × ℕ × ℕ :=
  let i := rng.ints ki % c.n
  let nx := (c.t i).x + (rng.rats kr * 2 - 1) * move_scale
  let ny := (c.t i).y + (rng.rats (kr + 1) * 2 - 1) * move_scale
  let nd := fmodQ ((c.t i).deg + (rng.rats (kr + 2) * 2 - 1) * ang_scale + 360)
    360
  (({ c with
      t := Function.update c.t i ⟨clamp nx (-100) 100, clamp ny (-100) 100, nd⟩
    } : Cfg).upd ops i, ki + 1, kr + 3)

/-- The iteration loop of `optimizeOne` (`k` counts the remaining
iterations, so the current iteration index is `iters - (k+1)`). -/
def optLoop (ops : Ops) (rng : Rng) (iters : ℕ) :
    ℕ → Cfg → Cfg → ℚ → ℕ → ℕ → Cfg
  | 0, _, best, _, _, _ => best
  | k + 1, cur, best, bestScore, ki, kr =>
    let i := iters - (k + 1)
    let tf := (i : ℚ) / (iters : ℚ)
    let mv := 0.08 * (1 - tf * 0.85)
    let ang := 20 * (1 - tf * 0.85)
    let pr := perturb ops rng cur mv ang ki kr
    let cand := pr.1
    if cand.anyOvl then optLoop ops rng iters k cur best bestScore pr.2.1 pr.2.2
    else
      let sc := cand.score
      if sc < bestScore then optLoop ops rng iters k cand cand sc pr.2.1 pr.2.2
      else optLoop ops rng iters k cand best bestScore pr.2.1 pr.2.2

/-- `optimizeOne(base, iters, seed)`. -/
def optimizeOne (ops : Ops) (rng : Rng) (base : Cfg) (iters : ℕ) : Cfg :=
  let cur := base.updAll ops
  optLoop ops rng iters iters cur cur cur.score 0 0

/-- The single-group optimizer's `loadCSV`: each group's configuration is
sized by its **row count**, and poses are assigned in row arrival order
(`int i = idx[g]++`), ignoring the index digits of the id. -/
def loadCSV (ops : Ops) (rows : List Row) : ℕ → Option Cfg := fun g =>
  let rs := rows.filter fun r => r.n = g
  if rs.isEmpty then none
  else
    let t0 := rs.foldl
      (fun (acc : (ℕ → Tree) × ℕ) r =>
        (Function.update acc.1 acc.2 ⟨r.x, r.y, r.deg⟩, acc.2 + 1))
      (fun _ => ⟨0, 0, 0⟩, 0)
    some (({ n := rs.length, t := t0.1, p := fun _ => defaultSPoly } :
      Cfg).updAll ops)

/-- The save condition at the end of `main`:
`!o.anyOvl() && ns < os - 1e-12L`. -/
def saveCond (c o : Cfg) : Bool :=
  !o.anyOvl && decide (o.score < c.score - 1e-12)

/-- The tail of `main`: write the updated full CSV mapping only when the save
condition holds, else report no improvement (modelled as `none`). -/
def mainTail (cfg : ℕ → Option Cfg) (targetN : ℕ) (c o : Cfg) :
    Option (ℕ → Option Cfg) :=
  if saveCond c o then some (Function.update cfg targetN (some o)) else none

/-- Coordinate invariant underlying the clamping behaviour of `perturb`:
every pose either still carries the coordinates it had in `base`, or has both
coordinates inside `[-100, 100]`. -/
def CoordInv (base c : Cfg) : Prop :=
  ∀ i, ((c.t i).x = (base.t i).x ∧ (c.t i).y = (base.t i).y) ∨
    ((-100 ≤ (c.t i).x ∧ (c.t i).x ≤ 100) ∧
      (-100 ≤ (c.t i).y ∧ (c.t i).y ≤ 100))

end SG

namespace Santa

/-! ### Concrete instances used by witnesses and counterexamples -/

/-- Oracle whose trigonometric functions agree with the real ones at angle 0:
`cos ≡ 1`, `sin ≡ 0` (so `cos² + sin² = 1` everywhere). -/
def unitOps : Ops := ⟨fun _ => 1, fun _ => 0, fun _ => 0, fun _ => 0, fun _ _ => 0⟩

/-- Oracle agreeing with the real functions at the arguments a concrete
`resolve_overlaps` witness evaluates: `√(1/100) = 1/10`. -/
def sqrtWitOps : Ops :=
  ⟨fun _ => 1, fun _ => 0, fun v => if v = 1 / 100 then 1 / 10 else 0,
   fun _ => 0, fun _ _ => 0⟩

/-- The all-zero RNG stream. -/
def zeroRng : Rng := ⟨fun _ => 0, fun _ => 0⟩

/-- The all-zero RNG family. -/
def zeroFam : RngFam := fun _ => zeroRng

/-- An RNG stream whose every integer draw is 4 (forcing `moveType = 4`). -/
def fourRng : Rng := ⟨fun _ => 4, fun _ => 0⟩

/-- One tree at the origin at angle 0, with a consistent polygon cache. -/
def oneTree : Cfg :=
  ⟨1, fun _ => 0, fun _ => 0, fun _ => 0, fun _ => getPoly unitOps 0 0 0⟩

/-- Two coincident trees at the origin: a consistent but infeasible
configuration (`anyOvl` is true). -/
def twoTrees : Cfg :=
  ⟨2, fun _ => 0, fun _ => 0, fun _ => 0, fun _ => getPoly unitOps 0 0 0⟩

/-- Two overlapping trees with center distance exactly `1/10`: tree 0 at the
origin and tree 1 at `(1/10, 0)`, both at angle 0, caches consistent. -/
def pairCfg : Cfg :=
  ⟨2, fun i => if i = 0 then 0 else 0.1, fun _ => 0, fun _ => 0,
   fun i => if i = 0 then getPoly sqrtWitOps 0 0 0
     else getPoly sqrtWitOps 0.1 0 0⟩

/-- Data row `001_0,1,2,3`. -/
def rowA : Row := ⟨1, 0, 1, 2, 3⟩

/-- Data row `001_1,4,5,6`. -/
def rowB : Row := ⟨1, 1, 4, 5, 6⟩

/-- Canonical form of "mutate pose `i`, then `upd(i)`": all four per-index
arrays updated at `i` together, the polygon cache consistently. -/
def poke (ops : Ops) (c : Cfg) (i : ℕ) (nx ny na : ℚ) : Cfg :=
  ⟨c.n, Function.update c.x i nx, Function.update c.y i ny,
   Function.update c.a i na, Function.update c.pl i (getPoly ops nx ny na)⟩

/-- The tentative configuration of the `sa_v3` joint move when `i = j`: both
pose coordinates of polygon 0 shifted twice by the same draw. -/
def jointTent (ops : Ops) (rng : Rng) (ms sc : ℚ) (cur : Cfg) (kr : ℕ) : Cfg :=
  poke ops cur 0
    (cur.x 0 + (rng.rats kr - 0.5) * ms * sc * 0.5 +
      (rng.rats kr - 0.5) * ms * sc * 0.5)
    (cur.y 0 + (rng.rats (kr + 1) - 0.5) * ms * sc * 0.5 +
      (rng.rats (kr + 1) - 0.5) * ms * sc * 0.5)
    (cur.a 0)

/-- Pairwise overlap-freeness of the first `m` polygons. -/
def PartFeas (c : Cfg) (m : ℕ) : Prop :=
  ∀ a b, a < b → b < m → overlap (c.pl a) (c.pl b) = false

/-- Distinctness of the `NNN_i` ids of two rows. -/
def rowKeyNe (r s : Row) : Prop := ¬(r.n = s.n ∧ r.idx = s.idx)

/-- Loop invariant of `sa_v3`: both tracked configurations stay consistent
and overlap-free. -/
def SAInv (ops : Ops) (s : SAState) : Prop :=
  Consistent ops s.cur ∧ Consistent ops s.best ∧ s.cur.anyOvl = false ∧
    s.best.anyOvl = false

/-- Invariant of the LS/FT greedy descent state: the cached best side `bs`
is exact and bounded by `B`. -/
def LsInvP (ops : Ops) (B : ℚ) (st : Cfg × ℚ × Bool) : Prop :=
  Consistent ops st.1 ∧ st.1.side = st.2.1 ∧ st.2.1 ≤ B

/-- Feasibility invariant of the LS/FT greedy descent state. -/
def LsFeasP (ops : Ops) (st : Cfg × ℚ × Bool) : Prop :=
  Consistent ops st.1 ∧ st.1.anyOvl = false

end Santa

set_option maxRecDepth 8000

namespace Santa

/-! ### Generic helpers -/

theorem bool_eq_of_iff {a b : Bool} (h : a = true ↔ b = true) : a = b := by
  cases a <;> cases b <;> simp_all

theorem list_any_congr {α : Type} {f g : α → Bool} :
    ∀ {l : List α}, (∀ x ∈ l, f x = g x) → l.any f = l.any g := by
  intro l
  induction l with
  | nil => intro _; rfl
  | cons a t ih =>
    intro h
    simp only [List.any_cons]
    rw [h a (List.mem_cons_self a t), ih fun x hx => h x (List.mem_cons_of_mem a hx)]

theorem list_any_swap {α β : Type} (l1 : List α) (l2 : List β)
    (f : α → β → Bool) :
    (l1.any fun i => l2.any fun j => f i j) =
      (l2.any fun j => l1.any fun i => f i j) := by
  apply bool_eq_of_iff
  simp only [List.any_eq_true]
  constructor
  · rintro ⟨i, hi, j, hj, hf⟩
    exact ⟨j, hj, i, hi, hf⟩
  · rintro ⟨j, hj, i, hi, hf⟩
    exact ⟨i, hi, j, hj, hf⟩

theorem foldl_preserve {α β : Type} {P : α → Prop} (f : α → β → α)
    (hf : ∀ a b, P a → P (f a b)) :
    ∀ (l : List β) (a), P a → P (l.foldl f a) := by
  intro l
  induction l with
  | nil => intro a h; exact h
  | cons b t ih => intro a h; exact ih (f a b) (hf a b h)

theorem foldl_le {α β : Type} (g : α → ℚ) (f : α → β → α)
    (hf : ∀ a b, g (f a b) ≤ g a) :
    ∀ (l : List β) (a), g (l.foldl f a) ≤ g a := by
  intro l
  induction l with
  | nil => intro a; exact le_refl _
  | cons b t ih => intro a; exact le_trans (ih (f a b)) (hf a b)

theorem update_update_cancel {α : Type} (f : ℕ → α) (i : ℕ) (v : α) :
    Function.update (Function.update f i v) i (f i) = f := by
  rw [Function.update_idem, Function.update_eq_self]

/-! ### `poke` normal forms and facts -/

theorem setXY_upd_eq_poke (ops : Ops) (c : Cfg) (i : ℕ) (nx ny : ℚ) :
    ((c.setX i nx).setY i ny).upd ops i = poke ops c i nx ny (c.a i) := by
  simp [Cfg.setX, Cfg.setY, Cfg.upd, poke, Function.update_same,
    Function.update_eq_self]

theorem setA_upd_eq_poke (ops : Ops) (c : Cfg) (i : ℕ) (na : ℚ) :
    (c.setA i na).upd ops i = poke ops c i (c.x i) (c.y i) na := by
  simp [Cfg.setA, Cfg.upd, poke, Function.update_same, Function.update_eq_self]

theorem setXYA_upd_eq_poke (ops : Ops) (c : Cfg) (i : ℕ) (nx ny na : ℚ) :
    (((c.setX i nx).setY i ny).setA i na).upd ops i = poke ops c i nx ny na := by
  simp [Cfg.setX, Cfg.setY, Cfg.setA, Cfg.upd, poke, Function.update_same]

theorem upd_eq_poke (ops : Ops) (c : Cfg) (i : ℕ) :
    c.upd ops i = poke ops c i (c.x i) (c.y i) (c.a i) := by
  simp [Cfg.upd, poke, Function.update_eq_self]

theorem poke_n (ops : Ops) (c : Cfg) (i : ℕ) (nx ny na : ℚ) :
    (poke ops c i nx ny na).n = c.n := rfl

theorem poke_pl_same (ops : Ops) (c : Cfg) (i : ℕ) (nx ny na : ℚ) :
    (poke ops c i nx ny na).pl i = getPoly ops nx ny na :=
  Function.update_same ..

theorem poke_pl_ne (ops : Ops) (c : Cfg) {k i : ℕ} (h : k ≠ i)
    (nx ny na : ℚ) : (poke ops c i nx ny na).pl k = c.pl k :=
  Function.update_noteq h ..

theorem poke_consistent (ops : Ops) {c : Cfg} (h : Consistent ops c)
    (i : ℕ) (nx ny na : ℚ) : Consistent ops (poke ops c i nx ny na) := by
  intro k
  by_cases hk : k = i
  · subst hk
    simp [poke, Function.update_same]
  · simp [poke, Function.update_noteq hk]
    exact h k

theorem poke_upd_self (ops : Ops) {c : Cfg} (h : Consistent ops c) (i : ℕ) :
    c.upd ops i = c := by
  rw [upd_eq_poke]
  show Cfg.mk _ _ _ _ _ = c
  simp only [poke, Function.update_eq_self]
  rw [← h i, Function.update_eq_self]

theorem poke_poke_cancel (ops : Ops) {c : Cfg} (h : Consistent ops c)
    (i : ℕ) (nx ny na : ℚ) :
    poke ops (poke ops c i nx ny na) i (c.x i) (c.y i) (c.a i) = c := by
  show Cfg.mk _ _ _ _ _ = c
  simp only [poke, update_update_cancel]
  rw [← h i, update_update_cancel]

/-! ### Characterizations of the overlap queries -/

theorem anyOvl_eq_false_iff (c : Cfg) :
    c.anyOvl = false ↔
      ∀ i j, i < j → j < c.n → overlap (c.pl i) (c.pl j) = false := by
  simp only [Cfg.anyOvl, List.any_eq_false, List.mem_range,
    Bool.and_eq_true, decide_eq_true_eq, not_and, Bool.not_eq_true]
  constructor
  · intro h i j hij hj
    exact h i (lt_trans hij hj) j hj hij
  · intro h i _ j hj hij
    exact h i j hij hj

theorem hasOvl_eq_false_iff (c : Cfg) (i : ℕ) :
    c.hasOvl i = false ↔
      ∀ j, j < c.n → i ≠ j → overlap (c.pl i) (c.pl j) = false := by
  simp only [Cfg.hasOvl, List.any_eq_false, List.mem_range,
    Bool.and_eq_true, decide_eq_true_eq, not_and, Bool.not_eq_true]

theorem hasOvlPair_eq_false_iff (c : Cfg) (i j : ℕ) :
    c.hasOvlPair i j = false ↔
      overlap (c.pl i) (c.pl j) = false ∧
      ∀ k, k < c.n → k ≠ i → k ≠ j →
        overlap (c.pl i) (c.pl k) = false ∧
        overlap (c.pl j) (c.pl k) = false := by
  simp only [Cfg.hasOvlPair, Bool.or_eq_false_iff, List.any_eq_false,
    List.mem_range, Bool.and_eq_true, decide_eq_true_eq, not_and,
    Bool.not_eq_true]
  constructor
  · rintro ⟨h1, h2⟩
    exact ⟨h1, fun k hk hki hkj => h2 k hk ⟨hki, hkj⟩⟩
  · rintro ⟨h1, h2⟩
    exact ⟨h1, fun k hk hx => h2 k hk hx.1 hx.2⟩

/-! ### Symmetry of `overlap` -/

theorem ccwB_cyc (p q r : Pt) : ccwB p q r = ccwB r p q := by
  unfold ccwB
  rw [decide_eq_decide]
  have key : (r.y - p.y) * (q.x - p.x) - (q.y - p.y) * (r.x - p.x) =
      (q.y - r.y) * (p.x - r.x) - (p.y - r.y) * (q.x - r.x) := by ring
  constructor <;> intro h <;> nlinarith [key]

theorem ccwB_degen_left (p r : Pt) : ccwB p p r = false := by
  simp [ccwB]

theorem ccwB_degen_right (p q : Pt) : ccwB p q q = false := by
  simp [ccwB]

theorem segInt_comm (a b c d : Pt) : segInt a b c d = segInt c d a b := by
  unfold segInt
  have h1 : ccwB c a b = ccwB a b c := (ccwB_cyc c a b).trans (ccwB_cyc b c a)
  have h2 : ccwB d a b = ccwB a b d := (ccwB_cyc d a b).trans (ccwB_cyc b d a)
  have h3 : ccwB c d a = ccwB a c d := ((ccwB_cyc a c d).trans (ccwB_cyc d a c)).symm
  have h4 : ccwB c d b = ccwB b c d := ((ccwB_cyc b c d).trans (ccwB_cyc d b c)).symm
  rw [h1, h2, h3, h4, Bool.and_comm]

theorem overlap_comm (a b : Poly) : overlap a b = overlap b a := by
  unfold overlap
  by_cases h : a.x1 < b.x0 ∨ b.x1 < a.x0 ∨ a.y1 < b.y0 ∨ b.y1 < a.y0
  · rw [if_pos h, if_pos (by tauto)]
  · rw [if_neg h, if_neg (by tauto)]
    congr 1
    · exact list_any_congr fun i _ => Bool.or_comm _ _
    · rw [list_any_swap]
      apply list_any_congr
      intro j _
      apply list_any_congr
      intro i _
      exact segInt_comm _ _ _ _

/-! ### Feasibility is preserved by moves that pass their incident check -/

theorem anyOvl_false_single (c c' : Cfg) (i : ℕ)
    (hn : c'.n = c.n)
    (hsame : ∀ k, k ≠ i → c'.pl k = c.pl k)
    (hc : c.anyOvl = false)
    (hchk : c'.hasOvl i = false) : c'.anyOvl = false := by
  rw [anyOvl_eq_false_iff] at hc ⊢
  rw [hasOvl_eq_false_iff] at hchk
  intro a b hab hbn
  by_cases hai : a = i
  · subst hai
    exact hchk b hbn (Nat.ne_of_lt hab)
  · by_cases hbi : b = i
    · subst hbi
      rw [overlap_comm]
      exact hchk a (lt_trans hab hbn) (Ne.symm hai)
    · rw [hsame a hai, hsame b hbi]
      exact hc a b hab (by rw [← hn]; exact hbn)

theorem anyOvl_false_pair (c c' : Cfg) (i j : ℕ)
    (hn : c'.n = c.n)
    (hsame : ∀ k, k ≠ i → k ≠ j → c'.pl k = c.pl k)
    (hc : c.anyOvl = false)
    (hchk : c'.hasOvlPair i j = false) : c'.anyOvl = false := by
  rw [anyOvl_eq_false_iff] at hc ⊢
  rw [hasOvlPair_eq_false_iff] at hchk
  obtain ⟨hij, hk⟩ := hchk
  intro a b hab hbn
  by_cases hai : a = i
  · by_cases hbj : b = j
    · rw [hai, hbj]
      exact hij
    · by_cases hbi : b = i
      · exact absurd hab (by rw [hai, hbi]; exact lt_irrefl i)
      · rw [hai]
        exact (hk b hbn hbi hbj).1
  · by_cases haj : a = j
    · by_cases hbi : b = i
      · rw [haj, hbi, overlap_comm]
        exact hij
      · by_cases hbj : b = j
        · exact absurd hab (by rw [haj, hbj]; exact lt_irrefl j)
        · rw [haj]
          exact (hk b hbn hbi hbj).2
    · by_cases hbi : b = i
      · rw [hbi, overlap_comm]
        exact (hk a (lt_trans hab hbn) hai haj).1
      · by_cases hbj : b = j
        · rw [hbj, overlap_comm]
          exact (hk a (lt_trans hab hbn) hai haj).2
        · rw [hsame a hai haj, hsame b hbi hbj]
          exact hc a b hab (by rw [← hn]; exact hbn)

theorem poke_x_same (ops : Ops) (c : Cfg) (i : ℕ) (nx ny na : ℚ) :
    (poke ops c i nx ny na).x i = nx := Function.update_same ..

theorem poke_y_same (ops : Ops) (c : Cfg) (i : ℕ) (nx ny na : ℚ) :
    (poke ops c i nx ny na).y i = ny := Function.update_same ..

theorem poke_a_same (ops : Ops) (c : Cfg) (i : ℕ) (nx ny na : ℚ) :
    (poke ops c i nx ny na).a i = na := Function.update_same ..

/-- The shared keep-or-revert tail of all single-index SA moves. -/
theorem moveOut_facts (ops : Ops) {cur c1 rv : Cfg} (i : ℕ)
    (hcon : Consistent ops cur)
    (hc1 : ∃ nx ny na, c1 = poke ops cur i nx ny na)
    (hrv : rv = poke ops c1 i (cur.x i) (cur.y i) (cur.a i))
    (ki kr : ℕ) :
    ((if c1.hasOvl i then (⟨rv, false, ki, kr⟩ : MoveOut)
      else ⟨c1, true, ki, kr⟩) : MoveOut).cur.n = cur.n ∧
    Consistent ops ((if c1.hasOvl i then (⟨rv, false, ki, kr⟩ : MoveOut)
      else ⟨c1, true, ki, kr⟩) : MoveOut).cur ∧
    (cur.anyOvl = false →
      ((if c1.hasOvl i then (⟨rv, false, ki, kr⟩ : MoveOut)
        else ⟨c1, true, ki, kr⟩) : MoveOut).cur.anyOvl = false) := by
  obtain ⟨nx, ny, na, rfl⟩ := hc1
  have hrv2 : rv = cur := by rw [hrv, poke_poke_cancel ops hcon]
  simp only [hrv2]
  by_cases hk : (poke ops cur i nx ny na).hasOvl i
  · rw [if_pos hk]
    exact ⟨rfl, hcon, fun hc => hc⟩
  · have hkf : (poke ops cur i nx ny na).hasOvl i = false :=
      Bool.eq_false_iff.mpr hk
    rw [if_neg hk]
    refine ⟨rfl, poke_consistent ops hcon i nx ny na, fun hc => ?_⟩
    exact anyOvl_false_single cur _ i rfl
      (fun k hk2 => poke_pl_ne ops cur hk2 nx ny na) hc hkf

theorem moveSingle_preserves (ops : Ops) (rng : Rng) (n mt : ℕ)
    (ms rs sc : ℚ) {cur : Cfg} (ki kr : ℕ) (hcon : Consistent ops cur) :
    (moveSingle ops rng n mt ms rs sc cur ki kr).cur.n = cur.n ∧
    Consistent ops (moveSingle ops rng n mt ms rs sc cur ki kr).cur ∧
    (cur.anyOvl = false →
      (moveSingle ops rng n mt ms rs sc cur ki kr).cur.anyOvl = false) := by
  by_cases h0 : mt = 0
  · simp only [moveSingle, if_pos h0, setXY_upd_eq_poke, setXYA_upd_eq_poke]
    exact moveOut_facts ops _ hcon ⟨_, _, _, rfl⟩ rfl _ _
  · by_cases h1 : mt = 1
    · by_cases hd : ops.sqrt ((cur.centroid.1 - cur.x (rng.ints ki % n)) *
          (cur.centroid.1 - cur.x (rng.ints ki % n)) +
          (cur.centroid.2 - cur.y (rng.ints ki % n)) *
          (cur.centroid.2 - cur.y (rng.ints ki % n))) > 1e-6
      · simp only [moveSingle, if_neg h0, if_pos h1, if_pos hd,
          setXY_upd_eq_poke, setXYA_upd_eq_poke]
        exact moveOut_facts ops _ hcon ⟨_, _, _, rfl⟩ rfl _ _
      · simp only [moveSingle, if_neg h0, if_pos h1, if_neg hd,
          setXYA_upd_eq_poke]
        simp only [upd_eq_poke]
        exact moveOut_facts ops _ hcon ⟨_, _, _, rfl⟩ rfl _ _
    · by_cases h2 : mt = 2
      · simp only [moveSingle, if_neg h0, if_neg h1, if_pos h2,
          setXYA_upd_eq_poke]
        simp only [setA_upd_eq_poke]
        exact moveOut_facts ops _ hcon ⟨_, _, _, rfl⟩ rfl _ _
      · simp only [moveSingle, if_neg h0, if_neg h1, if_neg h2,
          setXYA_upd_eq_poke]
        exact moveOut_facts ops _ hcon ⟨_, _, _, rfl⟩ rfl _ _

theorem pair_chain_pl_ne (ops : Ops) (c : Cfg) {k i j : ℕ} (h1 : k ≠ i)
    (h2 : k ≠ j) (xi yi xj yj : ℚ) :
    ((((((c.setX i xi).setY i yi).setX j xj).setY j yj).upd ops i).upd
      ops j).pl k = c.pl k := by
  simp [Cfg.setX, Cfg.setY, Cfg.upd, Function.update_noteq h1,
    Function.update_noteq h2]

theorem pair_chain_consistent (ops : Ops) {c : Cfg} (hcon : Consistent ops c)
    (i j : ℕ) (xi yi xj yj : ℚ) :
    Consistent ops ((((((c.setX i xi).setY i yi).setX j xj).setY j
      yj).upd ops i).upd ops j) := by
  intro k
  simp only [Cfg.setX, Cfg.setY, Cfg.upd, Function.update_apply]
  split_ifs <;> first | exact hcon _ | simp_all

theorem pair_chain_revert (ops : Ops) {c c1 : Cfg} (hcon : Consistent ops c)
    (i j : ℕ) (xi yi xj yj : ℚ)
    (hc1 : c1 = (((((c.setX i xi).setY i yi).setX j xj).setY j yj).upd
      ops i).upd ops j) :
    (((((c1.setX i (c.x i)).setY i (c.y i)).setX j (c.x j)).setY j
      (c.y j)).upd ops i).upd ops j = c := by
  subst hc1
  ext k
  · rfl
  · simp only [Cfg.setX, Cfg.setY, Cfg.upd, Function.update_apply]
    split_ifs <;> simp_all
  · simp only [Cfg.setX, Cfg.setY, Cfg.upd, Function.update_apply]
    split_ifs <;> simp_all
  · simp only [Cfg.setX, Cfg.setY, Cfg.upd, Function.update_apply]
  · simp only [Cfg.setX, Cfg.setY, Cfg.upd, Function.update_apply]
    split_ifs <;> simp_all [(hcon _).symm]

/-- The shared keep-or-revert tail of the two pair moves (swap and joint). -/
theorem moveOutPair_facts (ops : Ops) {cur c1 rv : Cfg}
    (hcon : Consistent ops cur) (i j : ℕ) (xi yi xj yj : ℚ)
    (hc1 : c1 = (((((cur.setX i xi).setY i yi).setX j xj).setY j yj).upd
      ops i).upd ops j)
    (hrv : rv = (((((c1.setX i (cur.x i)).setY i (cur.y i)).setX j
      (cur.x j)).setY j (cur.y j)).upd ops i).upd ops j)
    (ki kr : ℕ) :
    ((if c1.hasOvlPair i j then (⟨rv, false, ki, kr⟩ : MoveOut)
      else ⟨c1, true, ki, kr⟩) : MoveOut).cur.n = cur.n ∧
    Consistent ops ((if c1.hasOvlPair i j then (⟨rv, false, ki, kr⟩ : MoveOut)
      else ⟨c1, true, ki, kr⟩) : MoveOut).cur ∧
    (cur.anyOvl = false →
      ((if c1.hasOvlPair i j then (⟨rv, false, ki, kr⟩ : MoveOut)
        else ⟨c1, true, ki, kr⟩) : MoveOut).cur.anyOvl = false) := by
  have hrv2 : rv = cur := by
    rw [hrv]
    exact pair_chain_revert ops hcon i j xi yi xj yj hc1
  simp only [hrv2]
  subst hc1
  by_cases hk : ((((((cur.setX i xi).setY i yi).setX j xj).setY j yj).upd
      ops i).upd ops j).hasOvlPair i j
  · rw [if_pos hk]
    exact ⟨rfl, hcon, fun hc => hc⟩
  · have hkf := Bool.eq_false_iff.mpr hk
    rw [if_neg hk]
    refine ⟨rfl, pair_chain_consistent ops hcon i j xi yi xj yj, fun hc => ?_⟩
    exact anyOvl_false_pair cur _ i j rfl
      (fun k hk1 hk2 => pair_chain_pl_ne ops cur hk1 hk2 xi yi xj yj) hc hkf

theorem moveSwap_preserves (ops : Ops) (rng : Rng) (n : ℕ) {cur : Cfg}
    (ki kr : ℕ) (hcon : Consistent ops cur) :
    (moveSwap ops rng n cur ki kr).cur.n = cur.n ∧
    Consistent ops (moveSwap ops rng n cur ki kr).cur ∧
    (cur.anyOvl = false → (moveSwap ops rng n cur ki kr).cur.anyOvl = false) := by
  simp only [moveSwap]
  exact moveOutPair_facts ops hcon _ _ _ _ _ _ rfl rfl _ _

theorem moveJoint_preserves (ops : Ops) (rng : Rng) (n : ℕ) (ms sc : ℚ)
    {cur : Cfg} (ki kr : ℕ) (hcon : Consistent ops cur) :
    (moveJoint ops rng n ms sc cur ki kr).cur.n = cur.n ∧
    Consistent ops (moveJoint ops rng n ms sc cur ki kr).cur ∧
    (cur.anyOvl = false →
      (moveJoint ops rng n ms sc cur ki kr).cur.anyOvl = false) := by
  simp only [moveJoint]
  exact moveOutPair_facts ops hcon _ _ _ _ _ _ rfl rfl _ _

theorem moveBBox_preserves (ops : Ops) (rng : Rng) (n : ℕ) (ms sc : ℚ)
    {cur : Cfg} (ki kr : ℕ) (hcon : Consistent ops cur) :
    (moveBBox ops rng n ms sc cur ki kr).cur.n = cur.n ∧
    Consistent ops (moveBBox ops rng n ms sc cur ki kr).cur ∧
    (cur.anyOvl = false →
      (moveBBox ops rng n ms sc cur ki kr).cur.anyOvl = false) := by
  by_cases hd : ops.sqrt (((cur.getBBoxQ.1 + cur.getBBoxQ.2.2.1) / 2 -
        cur.x (rng.ints ki % n)) * ((cur.getBBoxQ.1 + cur.getBBoxQ.2.2.1) / 2 -
        cur.x (rng.ints ki % n)) + ((cur.getBBoxQ.2.1 + cur.getBBoxQ.2.2.2) /
        2 - cur.y (rng.ints ki % n)) * ((cur.getBBoxQ.2.1 +
        cur.getBBoxQ.2.2.2) / 2 - cur.y (rng.ints ki % n))) > 1e-6
  · simp only [moveBBox, if_pos hd, setXY_upd_eq_poke, poke_a_same]
    exact moveOut_facts ops _ hcon ⟨_, _, _, rfl⟩ rfl _ _
  · simp only [moveBBox, if_neg hd, setXY_upd_eq_poke]
    simp only [upd_eq_poke, poke_a_same]
    exact moveOut_facts ops _ hcon ⟨_, _, _, rfl⟩ rfl _ _


theorem moveCorner_preserves (ops : Ops) (rng : Rng) (ms rs sc : ℚ)
    {cur : Cfg} (ki kr : ℕ) (hcon : Consistent ops cur) :
    (moveCorner ops rng ms rs sc cur ki kr).cur.n = cur.n ∧
    Consistent ops (moveCorner ops rng ms rs sc cur ki kr).cur ∧
    (cur.anyOvl = false →
      (moveCorner ops rng ms rs sc cur ki kr).cur.anyOvl = false) := by
  by_cases hemp : cur.findCornerTrees.isEmpty
  · simp only [moveCorner, if_pos hemp]
    exact ⟨trivial, hcon, fun hc => hc⟩
  · by_cases hd : ops.sqrt (((cur.getBBoxQ.1 + cur.getBBoxQ.2.2.1) / 2 -
          cur.x (cur.findCornerTrees.getD
            (rng.ints ki % cur.findCornerTrees.length) 0)) *
          ((cur.getBBoxQ.1 + cur.getBBoxQ.2.2.1) / 2 -
          cur.x (cur.findCornerTrees.getD
            (rng.ints ki % cur.findCornerTrees.length) 0)) +
          ((cur.getBBoxQ.2.1 + cur.getBBoxQ.2.2.2) / 2 -
          cur.y (cur.findCornerTrees.getD
            (rng.ints ki % cur.findCornerTrees.length) 0)) *
          ((cur.getBBoxQ.2.1 + cur.getBBoxQ.2.2.2) / 2 -
          cur.y (cur.findCornerTrees.getD
            (rng.ints ki % cur.findCornerTrees.length) 0))) > 1e-6
    · simp only [moveCorner, if_neg hemp, if_pos hd, setXYA_upd_eq_poke]
      exact moveOut_facts ops _ hcon ⟨_, _, _, rfl⟩ rfl _ _
    · simp only [moveCorner, if_neg hemp, if_neg hd, setXYA_upd_eq_poke]
      simp only [upd_eq_poke]
      exact moveOut_facts ops _ hcon ⟨_, _, _, rfl⟩ rfl _ _

theorem movePhase_preserves (ops : Ops) (rng : Rng) (n : ℕ) (ms rs sc : ℚ)
    {cur : Cfg} (ki kr : ℕ) (hcon : Consistent ops cur) :
    (movePhase ops rng n ms rs sc cur ki kr).cur.n = cur.n ∧
    Consistent ops (movePhase ops rng n ms rs sc cur ki kr).cur ∧
    (cur.anyOvl = false →
      (movePhase ops rng n ms rs sc cur ki kr).cur.anyOvl = false) := by
  simp only [movePhase]
  split
  · exact moveSingle_preserves ops rng n _ ms rs sc _ _ hcon
  · split
    · exact moveSwap_preserves ops rng n _ _ hcon
    · split
      · exact moveBBox_preserves ops rng n ms sc _ _ hcon
      · split
        · exact moveCorner_preserves ops rng ms rs sc _ _ hcon
        · exact moveJoint_preserves ops rng n ms sc _ _ hcon

theorem mStep_cur_cases (ops : Ops) (cur best : Cfg) (bs cs ns T : ℚ)
    (noImp : ℕ) (u : ℚ) :
    (mStep ops cur best bs cs ns T noImp u).cur = cur ∨
      (mStep ops cur best bs cs ns T noImp u).cur = best := by
  simp only [mStep]
  split_ifs <;> simp

theorem mStep_best_cases (ops : Ops) (cur best : Cfg) (bs cs ns T : ℚ)
    (noImp : ℕ) (u : ℚ) :
    (mStep ops cur best bs cs ns T noImp u).best = cur ∨
      (mStep ops cur best bs cs ns T noImp u).best = best := by
  simp only [mStep]
  split_ifs <;> simp

theorem saStep_inv (ops : Ops) (rng : Rng) (n : ℕ) (T0 Tm ms rs alpha : ℚ)
    {s : SAState} (h : SAInv ops s) :
    SAInv ops (saStep ops rng n T0 Tm ms rs alpha s) := by
  obtain ⟨h1, h2, h3, h4⟩ := h
  obtain ⟨hmn, hmc, hmf⟩ :=
    movePhase_preserves ops rng n ms rs (s.T / T0) s.ki s.kr h1
  have hmf2 := hmf h3
  simp only [saStep]
  split
  · constructor
    · rcases mStep_cur_cases ops (movePhase ops rng n ms rs (s.T / T0) s.cur
          s.ki s.kr).cur s.best s.bs s.cs _ s.T s.noImp _ with hc | hc <;>
        rw [hc] <;> assumption
    constructor
    · rcases mStep_best_cases ops (movePhase ops rng n ms rs (s.T / T0) s.cur
          s.ki s.kr).cur s.best s.bs s.cs _ s.T s.noImp _ with hc | hc <;>
        rw [hc] <;> assumption
    constructor
    · rcases mStep_cur_cases ops (movePhase ops rng n ms rs (s.T / T0) s.cur
          s.ki s.kr).cur s.best s.bs s.cs _ s.T s.noImp _ with hc | hc <;>
        rw [hc] <;> assumption
    · rcases mStep_best_cases ops (movePhase ops rng n ms rs (s.T / T0) s.cur
          s.ki s.kr).cur s.best s.bs s.cs _ s.T s.noImp _ with hc | hc <;>
        rw [hc] <;> assumption
  · exact ⟨hmc, h2, hmf2, h4⟩

theorem saLoop_inv (ops : Ops) (rng : Rng) (n : ℕ) (T0 Tm ms rs alpha : ℚ) :
    ∀ (k : ℕ) (s : SAState), SAInv ops s →
      SAInv ops (saLoop ops rng n T0 Tm ms rs alpha k s) := by
  intro k
  induction k with
  | zero => intro s h; exact h
  | succ k ih =>
    intro s h
    exact ih _ (saStep_inv ops rng n T0 Tm ms rs alpha h)

theorem sa_v3_feasible (ops : Ops) (fam : RngFam) (c : Cfg) (iter : ℕ)
    (T0 Tm ms rs : ℚ) (seed : ℕ) (hcon : Consistent ops c)
    (hf : c.anyOvl = false) :
    (sa_v3 ops fam c iter T0 Tm ms rs seed).anyOvl = false := by
  unfold sa_v3
  exact (saLoop_inv ops (fam seed) c.n T0 Tm ms rs _ iter
    ⟨c, c, c.side, c.side, T0, 0, 0, 0⟩ ⟨hcon, hcon, hf, hf⟩).2.2.2

/-! ### Local search and fractional translation: monotone and feasible -/

theorem lsTryTrans_facts (ops : Ops) (i : ℕ) (dx dy : ℚ)
    (st : Cfg × ℚ × Bool) (hcon : Consistent ops st.1) :
    Consistent ops (lsTryTrans ops i dx dy st).1 ∧
    (st.1.side = st.2.1 →
      (lsTryTrans ops i dx dy st).1.side = (lsTryTrans ops i dx dy st).2.1) ∧
    (st.1.anyOvl = false → (lsTryTrans ops i dx dy st).1.anyOvl = false) := by
  simp only [lsTryTrans, setXY_upd_eq_poke, poke_a_same]
  simp only [poke_poke_cancel ops hcon]
  by_cases hk : (poke ops st.1 i (st.1.x i + dx) (st.1.y i + dy)
      (st.1.a i)).hasOvl i
  · rw [if_pos hk]
    exact ⟨hcon, fun h => h, fun h => h⟩
  · rw [if_neg hk]
    by_cases himp : (poke ops st.1 i (st.1.x i + dx) (st.1.y i + dy)
        (st.1.a i)).side < st.2.1 - 1e-10
    · rw [if_pos himp]
      refine ⟨poke_consistent ops hcon i _ _ _, fun _ => rfl, fun hf => ?_⟩
      exact anyOvl_false_single st.1 _ i rfl
        (fun k hk2 => poke_pl_ne ops st.1 hk2 _ _ _) hf
        (Bool.eq_false_iff.mpr hk)
    · rw [if_neg himp]
      exact ⟨hcon, fun h => h, fun h => h⟩

theorem lsTryRot_facts (ops : Ops) (i : ℕ) (da : ℚ)
    (st : Cfg × ℚ × Bool) (hcon : Consistent ops st.1) :
    Consistent ops (lsTryRot ops i da st).1 ∧
    (st.1.side = st.2.1 →
      (lsTryRot ops i da st).1.side = (lsTryRot ops i da st).2.1) ∧
    (st.1.anyOvl = false → (lsTryRot ops i da st).1.anyOvl = false) := by
  simp only [lsTryRot, setA_upd_eq_poke, poke_x_same, poke_y_same]
  simp only [poke_poke_cancel ops hcon]
  by_cases hk : (poke ops st.1 i (st.1.x i) (st.1.y i)
      (fmodQ (st.1.a i + da + 360) 360)).hasOvl i
  · rw [if_pos hk]
    exact ⟨hcon, fun h => h, fun h => h⟩
  · rw [if_neg hk]
    by_cases himp : (poke ops st.1 i (st.1.x i) (st.1.y i)
        (fmodQ (st.1.a i + da + 360) 360)).side < st.2.1 - 1e-10
    · rw [if_pos himp]
      refine ⟨poke_consistent ops hcon i _ _ _, fun _ => rfl, fun hf => ?_⟩
      exact anyOvl_false_single st.1 _ i rfl
        (fun k hk2 => poke_pl_ne ops st.1 hk2 _ _ _) hf
        (Bool.eq_false_iff.mpr hk)
    · rw [if_neg himp]
      exact ⟨hcon, fun h => h, fun h => h⟩

theorem ftTryTrans_facts (ops : Ops) (i : ℕ) (dx dy : ℚ)
    (st : Cfg × ℚ × Bool) (hcon : Consistent ops st.1) :
    Consistent ops (ftTryTrans ops i dx dy st).1 ∧
    (st.1.side = st.2.1 →
      (ftTryTrans ops i dx dy st).1.side = (ftTryTrans ops i dx dy st).2.1) ∧
    (st.1.anyOvl = false → (ftTryTrans ops i dx dy st).1.anyOvl = false) := by
  simp only [ftTryTrans, setXY_upd_eq_poke, poke_a_same]
  simp only [poke_poke_cancel ops hcon]
  by_cases hk : (poke ops st.1 i (st.1.x i + dx) (st.1.y i + dy)
      (st.1.a i)).hasOvl i
  · rw [if_pos hk]
    exact ⟨hcon, fun h => h, fun h => h⟩
  · rw [if_neg hk]
    by_cases himp : (poke ops st.1 i (st.1.x i + dx) (st.1.y i + dy)
        (st.1.a i)).side < st.2.1 - 1e-12
    · rw [if_pos himp]
      refine ⟨poke_consistent ops hcon i _ _ _, fun _ => rfl, fun hf => ?_⟩
      exact anyOvl_false_single st.1 _ i rfl
        (fun k hk2 => poke_pl_ne ops st.1 hk2 _ _ _) hf
        (Bool.eq_false_iff.mpr hk)
    · rw [if_neg himp]
      exact ⟨hcon, fun h => h, fun h => h⟩

theorem lsTryTrans_bs_le (ops : Ops) (i : ℕ) (dx dy : ℚ)
    (st : Cfg × ℚ × Bool) : (lsTryTrans ops i dx dy st).2.1 ≤ st.2.1 := by
  simp only [lsTryTrans]
  split_ifs with h1 h2
  · exact le_refl _
  · exact le_of_lt (lt_of_lt_of_le h2 (by linarith [show (0:ℚ) < 1e-10 by norm_num]))
  · exact le_refl _

theorem lsTryRot_bs_le (ops : Ops) (i : ℕ) (da : ℚ)
    (st : Cfg × ℚ × Bool) : (lsTryRot ops i da st).2.1 ≤ st.2.1 := by
  simp only [lsTryRot]
  split_ifs with h1 h2
  · exact le_refl _
  · exact le_of_lt (lt_of_lt_of_le h2 (by linarith [show (0:ℚ) < 1e-10 by norm_num]))
  · exact le_refl _

theorem ftTryTrans_bs_le (ops : Ops) (i : ℕ) (dx dy : ℚ)
    (st : Cfg × ℚ × Bool) : (ftTryTrans ops i dx dy st).2.1 ≤ st.2.1 := by
  simp only [ftTryTrans]
  split_ifs with h1 h2
  · exact le_refl _
  · exact le_of_lt (lt_of_lt_of_le h2 (by linarith [show (0:ℚ) < 1e-12 by norm_num]))
  · exact le_refl _

theorem lsTryTrans_inv (ops : Ops) (B : ℚ) (i : ℕ) (dx dy : ℚ)
    (st : Cfg × ℚ × Bool) (h : LsInvP ops B st) :
    LsInvP ops B (lsTryTrans ops i dx dy st) := by
  obtain ⟨h1, h2, h3⟩ := h
  obtain ⟨f1, f2, _⟩ := lsTryTrans_facts ops i dx dy st h1
  exact ⟨f1, f2 h2, le_trans (lsTryTrans_bs_le ops i dx dy st) h3⟩

theorem lsTryRot_inv (ops : Ops) (B : ℚ) (i : ℕ) (da : ℚ)
    (st : Cfg × ℚ × Bool) (h : LsInvP ops B st) :
    LsInvP ops B (lsTryRot ops i da st) := by
  obtain ⟨h1, h2, h3⟩ := h
  obtain ⟨f1, f2, _⟩ := lsTryRot_facts ops i da st h1
  exact ⟨f1, f2 h2, le_trans (lsTryRot_bs_le ops i da st) h3⟩

theorem ftTryTrans_inv (ops : Ops) (B : ℚ) (i : ℕ) (dx dy : ℚ)
    (st : Cfg × ℚ × Bool) (h : LsInvP ops B st) :
    LsInvP ops B (ftTryTrans ops i dx dy st) := by
  obtain ⟨h1, h2, h3⟩ := h
  obtain ⟨f1, f2, _⟩ := ftTryTrans_facts ops i dx dy st h1
  exact ⟨f1, f2 h2, le_trans (ftTryTrans_bs_le ops i dx dy st) h3⟩

theorem lsIndexSweep_inv (ops : Ops) (B : ℚ) (i : ℕ)
    (st : Cfg × ℚ × Bool) (h : LsInvP ops B st) :
    LsInvP ops B (lsIndexSweep ops i st) := by
  unfold lsIndexSweep
  apply foldl_preserve _ (fun acc stp hacc => ?_) _ _
    (foldl_preserve _ (fun acc stp hacc => ?_) _ _ h)
  · exact foldl_preserve _ (fun acc2 da hacc2 => lsTryRot_inv ops B i da
      acc2 hacc2) _ _ hacc
  · exact foldl_preserve _ (fun acc2 d hacc2 => lsTryTrans_inv ops B i _ _
      acc2 hacc2) _ _ hacc

theorem ftIndexSweep_inv (ops : Ops) (B : ℚ) (i : ℕ)
    (st : Cfg × ℚ × Bool) (h : LsInvP ops B st) :
    LsInvP ops B (ftIndexSweep ops i st) := by
  unfold ftIndexSweep
  exact foldl_preserve _ (fun acc stp hacc => foldl_preserve _
    (fun acc2 d hacc2 => ftTryTrans_inv ops B i _ _ acc2 hacc2) _ _ hacc) _ _ h

theorem lsIndexSweep_feas (ops : Ops) (i : ℕ)
    (st : Cfg × ℚ × Bool) (h : LsFeasP ops st) :
    LsFeasP ops (lsIndexSweep ops i st) := by
  unfold lsIndexSweep
  apply foldl_preserve _ (fun acc stp hacc => ?_) _ _
    (foldl_preserve _ (fun acc stp hacc => ?_) _ _ h)
  · exact foldl_preserve _ (fun acc2 da hacc2 =>
      ⟨(lsTryRot_facts ops i da acc2 hacc2.1).1,
       (lsTryRot_facts ops i da acc2 hacc2.1).2.2 hacc2.2⟩) _ _ hacc
  · exact foldl_preserve _ (fun acc2 d hacc2 =>
      ⟨(lsTryTrans_facts ops i _ _ acc2 hacc2.1).1,
       (lsTryTrans_facts ops i _ _ acc2 hacc2.1).2.2 hacc2.2⟩) _ _ hacc

theorem ftIndexSweep_feas (ops : Ops) (i : ℕ)
    (st : Cfg × ℚ × Bool) (h : LsFeasP ops st) :
    LsFeasP ops (ftIndexSweep ops i st) := by
  unfold ftIndexSweep
  exact foldl_preserve _ (fun acc stp hacc => foldl_preserve _
    (fun acc2 d hacc2 =>
      ⟨(ftTryTrans_facts ops i _ _ acc2 hacc2.1).1,
       (ftTryTrans_facts ops i _ _ acc2 hacc2.1).2.2 hacc2.2⟩) _ _ hacc) _ _ h

theorem lsPass_inv (ops : Ops) (B : ℚ) (n : ℕ) (best : Cfg) (bs : ℚ)
    (h1 : Consistent ops best) (h2 : best.side = bs) (h3 : bs ≤ B) :
    LsInvP ops B (lsPass ops n best bs) := by
  unfold lsPass
  apply foldl_preserve _ (fun acc i hacc => ?_) _ _
    (foldl_preserve _ (fun acc ci hacc => lsIndexSweep_inv ops B ci acc hacc)
      _ _ ⟨h1, h2, h3⟩)
  by_cases hm : best.findCornerTrees.contains i
  · rw [if_pos hm]
    exact hacc
  · rw [if_neg hm]
    exact lsIndexSweep_inv ops B i acc hacc

theorem ftPass_inv (ops : Ops) (B : ℚ) (n : ℕ) (best : Cfg) (bs : ℚ)
    (h1 : Consistent ops best) (h2 : best.side = bs) (h3 : bs ≤ B) :
    LsInvP ops B (ftPass ops n best bs) := by
  unfold ftPass
  exact foldl_preserve _ (fun acc i hacc => ftIndexSweep_inv ops B i acc hacc)
    _ _ ⟨h1, h2, h3⟩

theorem lsPass_feas (ops : Ops) (n : ℕ) (best : Cfg) (bs : ℚ)
    (h1 : Consistent ops best) (h2 : best.anyOvl = false) :
    LsFeasP ops (lsPass ops n best bs) := by
  unfold lsPass
  apply foldl_preserve _ (fun acc i hacc => ?_) _ _
    (foldl_preserve _ (fun acc ci hacc => lsIndexSweep_feas ops ci acc hacc)
      _ _ ⟨h1, h2⟩)
  by_cases hm : best.findCornerTrees.contains i
  · rw [if_pos hm]
    exact hacc
  · rw [if_neg hm]
    exact lsIndexSweep_feas ops i acc hacc

theorem ftPass_feas (ops : Ops) (n : ℕ) (best : Cfg) (bs : ℚ)
    (h1 : Consistent ops best) (h2 : best.anyOvl = false) :
    LsFeasP ops (ftPass ops n best bs) := by
  unfold ftPass
  exact foldl_preserve _ (fun acc i hacc => ftIndexSweep_feas ops i acc hacc)
    _ _ ⟨h1, h2⟩

theorem lsLoop_side (ops : Ops) (n : ℕ) (B : ℚ) :
    ∀ (it : ℕ) (best : Cfg) (bs : ℚ), Consistent ops best →
      best.side = bs → bs ≤ B → (lsLoop ops n it best bs).side ≤ B := by
  intro it
  induction it with
  | zero =>
    intro best bs _ h2 h3
    simp only [lsLoop]
    rw [h2]
    exact h3
  | succ it ih =>
    intro best bs h1 h2 h3
    simp only [lsLoop]
    obtain ⟨p1, p2, p3⟩ := lsPass_inv ops B n best bs h1 h2 h3
    by_cases himp : (lsPass ops n best bs).2.2
    · rw [if_pos himp]
      exact ih _ _ p1 p2 p3
    · rw [if_neg himp]
      rw [p2]
      exact p3

theorem ftLoop_side (ops : Ops) (n : ℕ) (B : ℚ) :
    ∀ (it : ℕ) (best : Cfg) (bs : ℚ), Consistent ops best →
      best.side = bs → bs ≤ B → (ftLoop ops n it best bs).side ≤ B := by
  intro it
  induction it with
  | zero =>
    intro best bs _ h2 h3
    simp only [ftLoop]
    rw [h2]
    exact h3
  | succ it ih =>
    intro best bs h1 h2 h3
    simp only [ftLoop]
    obtain ⟨p1, p2, p3⟩ := ftPass_inv ops B n best bs h1 h2 h3
    by_cases himp : (ftPass ops n best bs).2.2
    · rw [if_pos himp]
      exact ih _ _ p1 p2 p3
    · rw [if_neg himp]
      rw [p2]
      exact p3

theorem lsLoop_feas (ops : Ops) (n : ℕ) :
    ∀ (it : ℕ) (best : Cfg) (bs : ℚ), Consistent ops best →
      best.anyOvl = false → (lsLoop ops n it best bs).anyOvl = false := by
  intro it
  induction it with
  | zero =>
    intro best bs _ h2
    exact h2
  | succ it ih =>
    intro best bs h1 h2
    simp only [lsLoop]
    obtain ⟨p1, p2⟩ := lsPass_feas ops n best bs h1 h2
    by_cases himp : (lsPass ops n best bs).2.2
    · rw [if_pos himp]
      exact ih _ _ p1 p2
    · rw [if_neg himp]
      exact p2

theorem ftLoop_feas (ops : Ops) (n : ℕ) :
    ∀ (it : ℕ) (best : Cfg) (bs : ℚ), Consistent ops best →
      best.anyOvl = false → (ftLoop ops n it best bs).anyOvl = false := by
  intro it
  induction it with
  | zero =>
    intro best bs _ h2
    exact h2
  | succ it ih =>
    intro best bs h1 h2
    simp only [ftLoop]
    obtain ⟨p1, p2⟩ := ftPass_feas ops n best bs h1 h2
    by_cases himp : (ftPass ops n best bs).2.2
    · rw [if_pos himp]
      exact ih _ _ p1 p2
    · rw [if_neg himp]
      exact p2

theorem ls_v3_side_le (ops : Ops) (c : Cfg) (iter : ℕ)
    (hcon : Consistent ops c) : (ls_v3 ops c iter).side ≤ c.side :=
  lsLoop_side ops c.n c.side iter c c.side hcon rfl (le_refl _)

theorem ft_side_le (ops : Ops) (c : Cfg) (iter : ℕ)
    (hcon : Consistent ops c) :
    (fractional_translation ops c iter).side ≤ c.side :=
  ftLoop_side ops c.n c.side iter c c.side hcon rfl (le_refl _)

theorem ls_v3_feasible (ops : Ops) (c : Cfg) (iter : ℕ)
    (hcon : Consistent ops c) (hf : c.anyOvl = false) :
    (ls_v3 ops c iter).anyOvl = false :=
  lsLoop_feas ops c.n iter c c.side hcon hf

theorem ft_feasible (ops : Ops) (c : Cfg) (iter : ℕ)
    (hcon : Consistent ops c) (hf : c.anyOvl = false) :
    (fractional_translation ops c iter).anyOvl = false :=
  ftLoop_feas ops c.n iter c c.side hcon hf

theorem lsRotFold_bs_le (ops : Ops) (i : ℕ) :
    ∀ (l : List ℚ) (a : Cfg × ℚ × Bool),
      (l.foldl (fun acc2 da => lsTryRot ops i da acc2) a).2.1 ≤ a.2.1 := by
  intro l
  induction l with
  | nil => intro a; exact le_refl _
  | cons d t ih =>
    intro a
    exact le_trans (ih _) (lsTryRot_bs_le ops i d a)

theorem lsTransFold_bs_le (ops : Ops) (i : ℕ) (stp : ℚ) :
    ∀ (l : List ℕ) (a : Cfg × ℚ × Bool),
      (l.foldl (fun acc2 d =>
        lsTryTrans ops i (((lsDx.getD d 0 : ℤ) : ℚ) * stp)
          (((lsDy.getD d 0 : ℤ) : ℚ) * stp) acc2) a).2.1 ≤ a.2.1 := by
  intro l
  induction l with
  | nil => intro a; exact le_refl _
  | cons d t ih =>
    intro a
    exact le_trans (ih _) (lsTryTrans_bs_le ops i _ _ a)

theorem lsRsFold_bs_le (ops : Ops) (i : ℕ) :
    ∀ (l : List ℚ) (a : Cfg × ℚ × Bool),
      (l.foldl (fun acc stp =>
        [stp, -stp].foldl (fun acc2 da => lsTryRot ops i da acc2) acc)
        a).2.1 ≤ a.2.1 := by
  intro l
  induction l with
  | nil => intro a; exact le_refl _
  | cons s t ih =>
    intro a
    simp only [List.foldl_cons]
    exact le_trans (ih _) (lsRotFold_bs_le ops i [s, -s] a)

theorem lsPsFold_bs_le (ops : Ops) (i : ℕ) :
    ∀ (l : List ℚ) (a : Cfg × ℚ × Bool),
      (l.foldl (fun acc stp =>
        (List.range 8).foldl (fun acc2 d =>
          lsTryTrans ops i (((lsDx.getD d 0 : ℤ) : ℚ) * stp)
            (((lsDy.getD d 0 : ℤ) : ℚ) * stp) acc2) acc) a).2.1 ≤ a.2.1 := by
  intro l
  induction l with
  | nil => intro a; exact le_refl _
  | cons s t ih =>
    intro a
    simp only [List.foldl_cons]
    exact le_trans (ih _) (lsTransFold_bs_le ops i s (List.range 8) a)

theorem lsIndexSweep_eq (ops : Ops) (i : ℕ) (st : Cfg × ℚ × Bool) :
    lsIndexSweep ops i st = lsRsteps.foldl
      (fun acc stp =>
        [stp, -stp].foldl (fun acc2 da => lsTryRot ops i da acc2) acc)
      (lsPs.foldl
        (fun acc stp =>
          (List.range 8).foldl
            (fun acc2 d =>
              lsTryTrans ops i (((lsDx.getD d 0 : ℤ) : ℚ) * stp)
                (((lsDy.getD d 0 : ℤ) : ℚ) * stp) acc2)
            acc)
        st) := rfl

theorem lsIndexSweep_bs_le (ops : Ops) (i : ℕ) (st : Cfg × ℚ × Bool) :
    (lsIndexSweep ops i st).2.1 ≤ st.2.1 := by
  rw [lsIndexSweep_eq]
  exact le_trans
    (lsRsFold_bs_le ops i lsRsteps (lsPs.foldl
      (fun acc stp =>
        (List.range 8).foldl
          (fun acc2 d =>
            lsTryTrans ops i (((lsDx.getD d 0 : ℤ) : ℚ) * stp)
              (((lsDy.getD d 0 : ℤ) : ℚ) * stp) acc2)
          acc)
      st))
    (lsPsFold_bs_le ops i lsPs st)

theorem ftTransFold_bs_le (ops : Ops) (i : ℕ) (stp : ℚ) :
    ∀ (l : List ℕ) (a : Cfg × ℚ × Bool),
      (l.foldl (fun acc2 d =>
        ftTryTrans ops i (ftDx.getD d 0 * stp) (ftDy.getD d 0 * stp) acc2)
        a).2.1 ≤ a.2.1 := by
  intro l
  induction l with
  | nil => intro a; exact le_refl _
  | cons d t ih =>
    intro a
    exact le_trans (ih _) (ftTryTrans_bs_le ops i _ _ a)

theorem ftStepsFold_bs_le (ops : Ops) (i : ℕ) :
    ∀ (l : List ℚ) (a : Cfg × ℚ × Bool),
      (l.foldl (fun acc stp =>
        (List.range 8).foldl (fun acc2 d =>
          ftTryTrans ops i (ftDx.getD d 0 * stp) (ftDy.getD d 0 * stp) acc2)
          acc) a).2.1 ≤ a.2.1 := by
  intro l
  induction l with
  | nil => intro a; exact le_refl _
  | cons s t ih =>
    intro a
    simp only [List.foldl_cons]
    exact le_trans (ih _) (ftTransFold_bs_le ops i s (List.range 8) a)

theorem ftIndexSweep_bs_le (ops : Ops) (i : ℕ) (st : Cfg × ℚ × Bool) :
    (ftIndexSweep ops i st).2.1 ≤ st.2.1 := by
  unfold ftIndexSweep
  exact ftStepsFold_bs_le ops i ftSteps st

theorem lsCornersFold_bs_le (ops : Ops) :
    ∀ (l : List ℕ) (a : Cfg × ℚ × Bool),
      (l.foldl (fun acc ci => lsIndexSweep ops ci acc) a).2.1 ≤ a.2.1 := by
  intro l
  induction l with
  | nil => intro a; exact le_refl _
  | cons c t ih =>
    intro a
    simp only [List.foldl_cons]
    exact le_trans (ih _) (lsIndexSweep_bs_le ops c a)

theorem lsRangeFold_bs_le (ops : Ops) (corners : List ℕ) :
    ∀ (l : List ℕ) (a : Cfg × ℚ × Bool),
      (l.foldl (fun acc i =>
        if corners.contains i then acc else lsIndexSweep ops i acc)
        a).2.1 ≤ a.2.1 := by
  intro l
  induction l with
  | nil => intro a; exact le_refl _
  | cons c t ih =>
    intro a
    simp only [List.foldl_cons]
    by_cases hm : corners.contains c
    · rw [if_pos hm]
      exact ih a
    · rw [if_neg hm]
      exact le_trans (ih _) (lsIndexSweep_bs_le ops c a)

theorem lsPass_bs_le (ops : Ops) (n : ℕ) (best : Cfg) (bs : ℚ) :
    (lsPass ops n best bs).2.1 ≤ bs := by
  unfold lsPass
  exact le_trans
    (lsRangeFold_bs_le ops best.findCornerTrees (List.range n)
      (best.findCornerTrees.foldl (fun acc ci => lsIndexSweep ops ci acc)
        (best, bs, false)))
    (lsCornersFold_bs_le ops best.findCornerTrees (best, bs, false))

theorem ftRangeFold_bs_le (ops : Ops) :
    ∀ (l : List ℕ) (a : Cfg × ℚ × Bool),
      (l.foldl (fun acc i => ftIndexSweep ops i acc) a).2.1 ≤ a.2.1 := by
  intro l
  induction l with
  | nil => intro a; exact le_refl _
  | cons c t ih =>
    intro a
    simp only [List.foldl_cons]
    exact le_trans (ih _) (ftIndexSweep_bs_le ops c a)

theorem ftPass_bs_le (ops : Ops) (n : ℕ) (best : Cfg) (bs : ℚ) :
    (ftPass ops n best bs).2.1 ≤ bs := by
  unfold ftPass
  exact ftRangeFold_bs_le ops (List.range n) (best, bs, false)

/-! ### `resolve_overlaps` and `compress_cfg`: feasibility of accepted
configurations -/

theorem resolvePairStep_skip (ops : Ops) (rng : Rng) (stp : ℚ)
    (st : Cfg × Bool × ℕ) (i j : ℕ)
    (hov : overlap (st.1.pl i) (st.1.pl j) = false) :
    resolvePairStep ops rng stp st i j = st := by
  have h : ¬ overlap (st.1.pl i) (st.1.pl j) = true := by simp [hov]
  simp only [resolvePairStep]
  rw [if_neg h]

theorem resolvePairStep_hit_flag (ops : Ops) (rng : Rng) (stp : ℚ)
    (st : Cfg × Bool × ℕ) (i j : ℕ)
    (hov : overlap (st.1.pl i) (st.1.pl j) = true) :
    (resolvePairStep ops rng stp st i j).2.1 = true := by
  simp only [resolvePairStep]
  rw [if_pos hov]

theorem resolvePairStep_flag_mono (ops : Ops) (rng : Rng) (stp : ℚ)
    (st : Cfg × Bool × ℕ) (i j : ℕ) (h : st.2.1 = true) :
    (resolvePairStep ops rng stp st i j).2.1 = true := by
  by_cases hov : overlap (st.1.pl i) (st.1.pl j) = true
  · exact resolvePairStep_hit_flag ops rng stp st i j hov
  · rw [resolvePairStep_skip ops rng stp st i j (by
      cases hx : overlap (st.1.pl i) (st.1.pl j)
      · rfl
      · exact absurd hx hov)]
    exact h

theorem resolvePairStep_n (ops : Ops) (rng : Rng) (stp : ℚ)
    (st : Cfg × Bool × ℕ) (i j : ℕ) :
    (resolvePairStep ops rng stp st i j).1.n = st.1.n := by
  simp only [resolvePairStep]
  split
  · simp [Cfg.setX, Cfg.setY, Cfg.upd]
  · rfl

theorem foldl_flag_false {Q : (Cfg × Bool × ℕ) → ℕ → Prop}
    (g : (Cfg × Bool × ℕ) → ℕ → (Cfg × Bool × ℕ))
    (hmono : ∀ a x, a.2.1 = true → (g a x).2.1 = true)
    (hstep : ∀ a x, (g a x).2.1 = false → g a x = a ∧ Q a x) :
    ∀ (l : List ℕ) (a), (l.foldl g a).2.1 = false →
      l.foldl g a = a ∧ ∀ x ∈ l, Q a x := by
  intro l
  induction l with
  | nil =>
    intro a _
    exact ⟨rfl, fun x hx => absurd hx (List.not_mem_nil x)⟩
  | cons b t ih =>
    intro a hf
    simp only [List.foldl_cons] at hf ⊢
    have hgb : (g a b).2.1 = false := by
      cases hx : (g a b).2.1
      · rfl
      · exfalso
        have ht : (t.foldl g (g a b)).2.1 = true :=
          @foldl_preserve _ _ (fun a => a.2.1 = true) g hmono t (g a b) hx
        rw [ht] at hf
        cases hf
    obtain ⟨heq, hq⟩ := hstep a b hgb
    rw [heq] at hf ⊢
    obtain ⟨h1, h2⟩ := ih a hf
    refine ⟨h1, fun x hx => ?_⟩
    rcases List.mem_cons.mp hx with h | h
    · rw [h]; exact hq
    · exact h2 x h

theorem resolveInner_flag_false (ops : Ops) (rng : Rng) (stp : ℚ) (i : ℕ)
    (l : List ℕ) (a : Cfg × Bool × ℕ)
    (hf : (l.foldl (fun acc2 j =>
        if i < j then resolvePairStep ops rng stp acc2 i j else acc2)
        a).2.1 = false) :
    l.foldl (fun acc2 j =>
        if i < j then resolvePairStep ops rng stp acc2 i j else acc2) a = a ∧
      ∀ j ∈ l, i < j → overlap (a.1.pl i) (a.1.pl j) = false := by
  refine @foldl_flag_false
    (fun a j => i < j → overlap (a.1.pl i) (a.1.pl j) = false)
    (fun acc2 j => if i < j then resolvePairStep ops rng stp acc2 i j else acc2)
    ?_ ?_ l a hf
  · intro a x ha
    show (if i < x then resolvePairStep ops rng stp a i x else a).2.1 = true
    by_cases hx : i < x
    · rw [if_pos hx]; exact resolvePairStep_flag_mono ops rng stp a i x ha
    · rw [if_neg hx]; exact ha
  · intro a x hflag
    have hflag2 : (if i < x then resolvePairStep ops rng stp a i x
        else a).2.1 = false := hflag
    clear hflag
    show (if i < x then resolvePairStep ops rng stp a i x else a) = a ∧
      (i < x → overlap (a.1.pl i) (a.1.pl x) = false)
    by_cases hx : i < x
    · rw [if_pos hx] at hflag2 ⊢
      by_cases hov : overlap (a.1.pl i) (a.1.pl x) = true
      · rw [resolvePairStep_hit_flag ops rng stp a i x hov] at hflag2
        cases hflag2
      · have hov' : overlap (a.1.pl i) (a.1.pl x) = false := by
          cases hz : overlap (a.1.pl i) (a.1.pl x)
          · rfl
          · exact absurd hz hov
        exact ⟨resolvePairStep_skip ops rng stp a i x hov', fun _ => hov'⟩
    · rw [if_neg hx]
      exact ⟨rfl, fun hc => absurd hc hx⟩

theorem resolveInner_flag_mono (ops : Ops) (rng : Rng) (stp : ℚ) (i : ℕ)
    (l : List ℕ) (a : Cfg × Bool × ℕ) (ha : a.2.1 = true) :
    (l.foldl (fun acc2 j =>
        if i < j then resolvePairStep ops rng stp acc2 i j else acc2)
        a).2.1 = true := by
  refine @foldl_preserve _ _ (fun a => a.2.1 = true)
    (fun acc2 j => if i < j then resolvePairStep ops rng stp acc2 i j else acc2)
    ?_ l a ha
  intro a x hax
  show (if i < x then resolvePairStep ops rng stp a i x else a).2.1 = true
  by_cases hx : i < x
  · rw [if_pos hx]; exact resolvePairStep_flag_mono ops rng stp a i x hax
  · rw [if_neg hx]; exact hax

theorem resolvePass_flag_false (ops : Ops) (rng : Rng) (stp : ℚ) (n : ℕ)
    (c : Cfg) (kr : ℕ)
    (hf : (resolvePass ops rng stp n c kr).2.1 = false) :
    (resolvePass ops rng stp n c kr).1 = c ∧
      ∀ i ∈ List.range n, ∀ j ∈ List.range n, i < j →
        overlap (c.pl i) (c.pl j) = false := by
  unfold resolvePass at hf ⊢
  have h := @foldl_flag_false
    (fun a i => ∀ j ∈ List.range n, i < j →
      overlap (a.1.pl i) (a.1.pl j) = false)
    (fun acc i => (List.range n).foldl
      (fun acc2 j => if i < j then resolvePairStep ops rng stp acc2 i j
        else acc2) acc)
    (fun a x hax => resolveInner_flag_mono ops rng stp x (List.range n) a hax)
    (fun a x hflag => by
      obtain ⟨h1, h2⟩ :=
        resolveInner_flag_false ops rng stp x (List.range n) a hflag
      exact ⟨h1, h2⟩)
    (List.range n) (c, false, kr) hf
  rw [h.1]
  exact ⟨rfl, fun i hi j hj hij => h.2 i hi j hj hij⟩

theorem resolvePass_n (ops : Ops) (rng : Rng) (stp : ℚ) (n : ℕ) (c : Cfg)
    (kr : ℕ) : (resolvePass ops rng stp n c kr).1.n = c.n := by
  unfold resolvePass
  refine @foldl_preserve _ _ (fun acc => acc.1.n = c.n)
    _ ?_ (List.range n) (c, false, kr) rfl
  intro a i ha
  refine @foldl_preserve _ _ (fun acc => acc.1.n = c.n)
    _ ?_ (List.range n) a ha
  intro a2 j ha2
  show (if i < j then resolvePairStep ops rng stp a2 i j else a2).1.n = c.n
  by_cases hj : i < j
  · rw [if_pos hj]; rw [resolvePairStep_n]; exact ha2
  · rw [if_neg hj]; exact ha2

theorem resolveLoop_true_feas (ops : Ops) (rng : Rng) (stp : ℚ) (n : ℕ) :
    ∀ (t : ℕ) (c : Cfg) (kr : ℕ), c.n = n →
      (resolveLoop ops rng stp n t c kr).1 = true →
      (resolveLoop ops rng stp n t c kr).2.anyOvl = false := by
  intro t
  induction t with
  | zero =>
    intro c kr _ hres
    simp only [resolveLoop] at hres ⊢
    simpa using hres
  | succ t ih =>
    intro c kr hn hres
    simp only [resolveLoop] at hres ⊢
    by_cases hflag : (resolvePass ops rng stp n c kr).2.1 = true
    · rw [if_pos hflag] at hres ⊢
      exact ih (resolvePass ops rng stp n c kr).1
        (resolvePass ops rng stp n c kr).2.2
        (by rw [resolvePass_n]; exact hn) hres
    · have hflag' : (resolvePass ops rng stp n c kr).2.1 = false := by
        cases hx : (resolvePass ops rng stp n c kr).2.1
        · rfl
        · exact absurd hx hflag
      rw [if_neg hflag] at hres ⊢
      obtain ⟨h1, h2⟩ := resolvePass_flag_false ops rng stp n c kr hflag'
      show (resolvePass ops rng stp n c kr).1.anyOvl = false
      rw [h1]
      rw [anyOvl_eq_false_iff]
      intro i j hij hj
      exact h2 i (List.mem_range.mpr (lt_trans hij (hn ▸ hj)))
        j (List.mem_range.mpr (hn ▸ hj)) hij

theorem resolve_overlaps_true_feas (ops : Ops) (fam : RngFam) (c : Cfg)
    (max_iter : ℕ) (stp : ℚ) (seed : ℕ)
    (h : (resolve_overlaps ops fam c max_iter stp seed).1 = true) :
    (resolve_overlaps ops fam c max_iter stp seed).2.anyOvl = false := by
  unfold resolve_overlaps at h ⊢
  exact resolveLoop_true_feas ops (fam seed) stp c.n max_iter c 0 rfl h

theorem compressLoop_feas (ops : Ops) (fam : RngFam) (factor : ℚ)
    (relax_iters : ℕ) (relax_stp : ℚ) (seed : ℕ) :
    ∀ (s sIdx : ℕ) (best : Cfg), best.anyOvl = false →
      (compressLoop ops fam factor relax_iters relax_stp seed s sIdx
        best).anyOvl = false := by
  intro s
  induction s with
  | zero => intro sIdx best h; exact h
  | succ s ih =>
    intro sIdx best h
    simp only [compressLoop]
    by_cases hr : (resolve_overlaps ops fam (scale_cfg ops best factor)
        relax_iters relax_stp (seed + sIdx * 1337)).1 = true
    · rw [if_pos hr]
      exact ih (sIdx + 1) _
        (resolve_overlaps_true_feas ops fam _ relax_iters relax_stp _ hr)
    · rw [if_neg hr]
      exact h

theorem compress_cfg_feas (ops : Ops) (fam : RngFam) (c : Cfg) (steps : ℤ)
    (factor : ℚ) (relax_iters : ℕ) (relax_stp : ℚ) (seed : ℕ)
    (h : c.anyOvl = false) :
    (compress_cfg ops fam c steps factor relax_iters relax_stp
      seed).anyOvl = false := by
  unfold compress_cfg
  split
  · exact h
  · exact compressLoop_feas ops fam factor relax_iters relax_stp seed
      steps.toNat 0 c h

/-! ### `random_init_cfg`: a successful attempt is overlap-free by
construction -/

theorem placeTry_some (ops : Ops) (rng : Rng) (half : ℚ) (i : ℕ) :
    ∀ (t : ℕ) (c0 : Cfg) (kr : ℕ) (c1 : Cfg),
      (placeTry ops rng half i t c0 kr).1 = some c1 →
      (∀ k, k ≠ i → c1.pl k = c0.pl k) ∧ c1.n = c0.n ∧
        ∀ j, j < i → overlap (c1.pl i) (c1.pl j) = false := by
  intro t
  induction t with
  | zero =>
    intro c0 kr c1 h
    exact absurd h (by simp [placeTry])
  | succ t ih =>
    intro c0 kr c1 h
    simp only [placeTry] at h
    rw [setXYA_upd_eq_poke] at h
    by_cases hfd : ((List.range i).any fun j =>
        overlap ((poke ops c0 i ((rng.rats kr * 2 - 1) * half)
            ((rng.rats (kr + 1) * 2 - 1) * half) (rng.rats (kr + 2) * 360)).pl i)
          ((poke ops c0 i ((rng.rats kr * 2 - 1) * half)
            ((rng.rats (kr + 1) * 2 - 1) * half)
            (rng.rats (kr + 2) * 360)).pl j)) = true
    · rw [if_pos hfd] at h
      obtain ⟨h1, h2, h3⟩ := ih _ _ _ h
      refine ⟨fun k hk => ?_, ?_, h3⟩
      · rw [h1 k hk, poke_pl_ne ops c0 hk]
      · rw [h2, poke_n]
    · rw [if_neg hfd] at h
      have hc1 : c1 = poke ops c0 i ((rng.rats kr * 2 - 1) * half)
          ((rng.rats (kr + 1) * 2 - 1) * half) (rng.rats (kr + 2) * 360) := by
        cases h
        rfl
      subst hc1
      refine ⟨fun k hk => poke_pl_ne ops c0 hk _ _ _, poke_n .., fun j hj => ?_⟩
      simp only [List.any_eq_true, List.mem_range, not_exists, not_and,
        Bool.not_eq_true] at hfd
      exact hfd j hj

theorem placeAll_partFeas (ops : Ops) (rng : Rng) (half : ℚ) (ma : ℕ) :
    ∀ (k m : ℕ) (c : Cfg) (kr : ℕ) (c' : Cfg),
      PartFeas c m →
      (placeAll ops rng half ma (List.range' m k) c kr).1 = some c' →
      PartFeas c' (m + k) ∧ c'.n = c.n := by
  intro k
  induction k with
  | zero =>
    intro m c kr c' hpf h
    simp only [List.range', placeAll] at h
    cases h
    exact ⟨by simpa using hpf, rfl⟩
  | succ k ih =>
    intro m c kr c' hpf h
    rw [List.range'_succ] at h
    simp only [placeAll] at h
    cases hr : (placeTry ops rng half m ma c kr).1 with
    | none => rw [hr] at h; cases h
    | some c1 =>
      rw [hr] at h
      obtain ⟨h1, h2, h3⟩ := placeTry_some ops rng half m ma c kr c1 hr
      have hpf1 : PartFeas c1 (m + 1) := by
        intro a b hab hb
        rcases Nat.lt_succ_iff_lt_or_eq.mp hb with hbm | hbm
        · rw [h1 a (Nat.ne_of_lt (lt_trans hab hbm)),
            h1 b (Nat.ne_of_lt hbm)]
          exact hpf a b hab hbm
        · subst hbm
          rw [overlap_comm]
          exact h3 a hab
      obtain ⟨hA, hB⟩ := ih (m + 1) c1 _ c' hpf1 h
      refine ⟨?_, by rw [hB, h2]⟩
      have : m + 1 + k = m + (k + 1) := by omega
      rw [this] at hA
      exact hA

theorem randLoop_feas (ops : Ops) (rng : Rng) (n : ℕ) (base_side : ℚ)
    (ma : ℕ) :
    ∀ (t : ℕ) (scale : ℚ) (kr : ℕ) (c : Cfg),
      randLoop ops rng n base_side ma t scale kr = some c →
      c.anyOvl = false := by
  intro t
  induction t with
  | zero =>
    intro scale kr c h
    exact absurd h (by simp [randLoop])
  | succ t ih =>
    intro scale kr c h
    simp only [randLoop] at h
    cases hr : (placeAll ops rng (base_side * scale * 0.5) ma (List.range n)
        (emptyCfg n) kr).1 with
    | none =>
      rw [hr] at h
      exact ih _ _ c h
    | some c0 =>
      rw [hr] at h
      cases h
      rw [List.range_eq_range'] at hr
      obtain ⟨hpf, hn⟩ := placeAll_partFeas ops rng (base_side * scale * 0.5)
        ma n 0 (emptyCfg n) kr c
        (fun a b _ hb => absurd hb (Nat.not_lt_zero b)) hr
      rw [anyOvl_eq_false_iff]
      intro i j hij hj
      exact hpf i j hij (by rw [hn] at hj; simpa using hj)

theorem random_init_cfg_feas (ops : Ops) (fam : RngFam) (n : ℕ)
    (base_side side_scale : ℚ) (tries ma : ℕ) (seed : ℕ) (c : Cfg)
    (h : random_init_cfg ops fam n base_side side_scale tries ma seed =
      some c) :
    c.anyOvl = false := by
  unfold random_init_cfg at h
  exact randLoop_feas ops (fam seed) n base_side ma _ _ _ c h

/-! ### Self-overlap of a placed polygon -/

theorem foldl_min_le {f : ℕ → ℚ} :
    ∀ (l : List ℕ) (a : ℚ), l.foldl (fun m i => min m (f i)) a ≤ a := by
  intro l
  induction l with
  | nil => intro a; exact le_refl _
  | cons b t ih =>
    intro a
    exact le_trans (ih (min a (f b))) (min_le_left a (f b))

theorem le_foldl_max {f : ℕ → ℚ} :
    ∀ (l : List ℕ) (a : ℚ), a ≤ l.foldl (fun m i => max m (f i)) a := by
  intro l
  induction l with
  | nil => intro a; exact le_refl _
  | cons b t ih =>
    intro a
    exact le_trans (le_max_left a (f b)) (ih (max a (f b)))

theorem getPoly_x0_le_x1 (ops : Ops) (cx cy deg : ℚ) :
    (getPoly ops cx cy deg).x0 ≤ (getPoly ops cx cy deg).x1 :=
  le_trans (foldl_min_le _ _) (le_foldl_max _ _)

theorem getPoly_y0_le_y1 (ops : Ops) (cx cy deg : ℚ) :
    (getPoly ops cx cy deg).y0 ≤ (getPoly ops cx cy deg).y1 :=
  le_trans (foldl_min_le _ _) (le_foldl_max _ _)

theorem getPoly_p (ops : Ops) (cx cy deg : ℚ) (i : ℕ) :
    (getPoly ops cx cy deg).p i =
      rotPt (ops.cos (deg * srcPI / 180)) (ops.sin (deg * srcPI / 180))
        cx cy ⟨TX i, TY i⟩ := rfl

theorem ccw_123 (ops : Ops) (cx cy deg : ℚ)
    (h : ops.cos (deg * srcPI / 180) * ops.cos (deg * srcPI / 180) +
      ops.sin (deg * srcPI / 180) * ops.sin (deg * srcPI / 180) = 1) :
    ccwB ((getPoly ops cx cy deg).p 1) ((getPoly ops cx cy deg).p 2)
      ((getPoly ops cx cy deg).p 3) = true := by
  simp only [getPoly_p, ccwB, rotPt, decide_eq_true_eq]
  have hTX1 : TX 1 = 0.125 := rfl
  have hTX2 : TX 2 = 0.0625 := rfl
  have hTX3 : TX 3 = 0.2 := rfl
  have hTY1 : TY 1 = 0.5 := rfl
  have hTY2 : TY 2 = 0.5 := rfl
  have hTY3 : TY 3 = 0.25 := rfl
  rw [hTX1, hTX2, hTX3, hTY1, hTY2, hTY3]
  nlinarith [h]

theorem overlap_self (ops : Ops) (cx cy deg : ℚ)
    (h : ops.cos (deg * srcPI / 180) * ops.cos (deg * srcPI / 180) +
      ops.sin (deg * srcPI / 180) * ops.sin (deg * srcPI / 180) = 1) :
    overlap (getPoly ops cx cy deg) (getPoly ops cx cy deg) = true := by
  have hx := getPoly_x0_le_x1 ops cx cy deg
  have hy := getPoly_y0_le_y1 ops cx cy deg
  have hseg : segInt ((getPoly ops cx cy deg).p 1)
      ((getPoly ops cx cy deg).p ((1 + 1) % 15))
      ((getPoly ops cx cy deg).p 2)
      ((getPoly ops cx cy deg).p ((2 + 1) % 15)) = true := by
    show segInt ((getPoly ops cx cy deg).p 1) ((getPoly ops cx cy deg).p 2)
      ((getPoly ops cx cy deg).p 2) ((getPoly ops cx cy deg).p 3) = true
    simp only [segInt]
    rw [ccwB_degen_left, ccwB_degen_right, ccw_123 ops cx cy deg h]
    rfl
  unfold overlap
  rw [if_neg (by
    simp only [not_or, not_lt]
    exact ⟨hx, hx, hy, hy⟩)]
  rw [Bool.or_eq_true]
  refine Or.inr ?_
  refine List.any_eq_true.mpr ⟨1, List.mem_range.mpr (by norm_num), ?_⟩
  exact List.any_eq_true.mpr ⟨2, List.mem_range.mpr (by norm_num), hseg⟩

/-! ### The generation driver's CSV loader -/

theorem applyRow_skip (g : ℕ) (c : Cfg) (r : Row) (h : ¬ r.idx < g) :
    applyRow g c r = c := by
  simp [applyRow, h]

theorem applyRow_sets (g : ℕ) (c : Cfg) (r : Row) (h : r.idx < g) :
    (applyRow g c r).x r.idx = r.x ∧ (applyRow g c r).y r.idx = r.y ∧
      (applyRow g c r).a r.idx = r.deg := by
  simp [applyRow, h, Cfg.setX, Cfg.setY, Cfg.setA, Function.update_same]

theorem applyRow_comm (g : ℕ) (c : Cfg) {r s : Row} (h : r.idx ≠ s.idx) :
    applyRow g (applyRow g c r) s = applyRow g (applyRow g c s) r := by
  simp only [applyRow]
  split_ifs with h1 h2
  · simp only [Cfg.setX, Cfg.setY, Cfg.setA]
    refine Cfg.ext rfl ?_ ?_ ?_ rfl
    · exact Function.update_comm h r.x s.x c.x
    · exact Function.update_comm h r.y s.y c.y
    · exact Function.update_comm h r.deg s.deg c.a
  · rfl
  · rfl
  · rfl

theorem rowKeyNe_symm : Symmetric rowKeyNe :=
  fun _ _ h hc => h ⟨hc.1.symm, hc.2.symm⟩

theorem buildCfg1_perm (ops : Ops) (g : ℕ) {l1 l2 : List Row}
    (hp : l1.Perm l2) (hpw : l1.Pairwise rowKeyNe)
    (hg : ∀ r ∈ l1, r.n = g) :
    buildCfg1 ops g l1 = buildCfg1 ops g l2 := by
  unfold buildCfg1
  congr 1
  refine hp.foldl_eq' ?_ (emptyCfg g)
  intro x hx y hy z
  by_cases hxy : x = y
  · rw [hxy]
  · have hk : rowKeyNe x y := hpw.forall rowKeyNe_symm hx hy hxy
    have hidx : x.idx ≠ y.idx := fun he =>
      hk ⟨(hg x hx).trans (hg y hy).symm, he⟩
    exact applyRow_comm g z hidx

theorem loadCSV_perm (ops : Ops) {rows rows' : List Row}
    (hp : rows.Perm rows') (hpw : rows.Pairwise rowKeyNe) (g : ℕ) :
    loadCSV ops rows g = loadCSV ops rows' g := by
  unfold loadCSV
  have hfp : (rows.filter fun r => r.n = g).Perm
      (rows'.filter fun r => r.n = g) := hp.filter _
  by_cases he : (rows.filter fun r => r.n = g) = []
  · have he' : (rows'.filter fun r => r.n = g) = [] :=
      ((he ▸ hfp).symm).eq_nil
    rw [he, he']
  · have he' : (rows'.filter fun r => r.n = g) ≠ [] := fun hh =>
      he (hh ▸ hfp).eq_nil
    rw [if_neg (by simpa using he), if_neg (by simpa using he')]
    refine congrArg some ?_
    refine buildCfg1_perm ops g hfp (hpw.filter _) ?_
    intro r hr
    have := List.mem_filter.mp hr
    simpa using this.2

theorem loadCSV_isSome (ops : Ops) (rows : List Row) (g : ℕ)
    (h : (rows.filter fun r => r.n = g) ≠ []) :
    (loadCSV ops rows g).isSome = true := by
  unfold loadCSV
  rw [if_neg (by simpa using h)]
  rfl

end Santa

namespace SG

/-! ### Clamping invariant of the single-group optimizer -/

theorem clamp_pair (v : ℚ) :
    -100 ≤ clamp v (-100) 100 ∧ clamp v (-100) 100 ≤ 100 :=
  ⟨le_max_left _ _, max_le (by norm_num) (min_le_left _ _)⟩

theorem perturb_t (ops : Santa.Ops) (rng : Santa.Rng) (c : Cfg)
    (move_scale ang_scale : ℚ) (ki kr : ℕ) :
    (perturb ops rng c move_scale ang_scale ki kr).1.t =
      Function.update c.t (rng.ints ki % c.n)
        ⟨clamp ((c.t (rng.ints ki % c.n)).x +
            (rng.rats kr * 2 - 1) * move_scale) (-100) 100,
          clamp ((c.t (rng.ints ki % c.n)).y +
            (rng.rats (kr + 1) * 2 - 1) * move_scale) (-100) 100,
          Santa.fmodQ ((c.t (rng.ints ki % c.n)).deg +
            (rng.rats (kr + 2) * 2 - 1) * ang_scale + 360) 360⟩ := rfl

theorem perturb_inv (ops : Santa.Ops) (rng : Santa.Rng) (c : Cfg)
    (move_scale ang_scale : ℚ) (ki kr : ℕ) {base : Cfg}
    (h : CoordInv base c) :
    CoordInv base (perturb ops rng c move_scale ang_scale ki kr).1 := by
  intro k
  rw [perturb_t]
  by_cases hk : k = rng.ints ki % c.n
  · subst hk
    rw [Function.update_same]
    right
    exact ⟨clamp_pair _, clamp_pair _⟩
  · rw [Function.update_noteq hk]
    exact h k

theorem optLoop_inv (ops : Santa.Ops) (rng : Santa.Rng) (iters : ℕ)
    {base : Cfg} :
    ∀ (k : ℕ) (cur best : Cfg) (bestScore : ℚ) (ki kr : ℕ),
      CoordInv base cur → CoordInv base best →
      CoordInv base (optLoop ops rng iters k cur best bestScore ki kr) := by
  intro k
  induction k with
  | zero => intro cur best bestScore ki kr _ hb; exact hb
  | succ k ih =>
    intro cur best bestScore ki kr hc hb
    simp only [optLoop]
    split
    · exact ih cur best bestScore _ _ hc hb
    · split
      · exact ih _ _ _ _ _ (perturb_inv ops rng cur _ _ ki kr hc)
          (perturb_inv ops rng cur _ _ ki kr hc)
      · exact ih _ best bestScore _ _ (perturb_inv ops rng cur _ _ ki kr hc) hb

theorem foldUpd_t (ops : Santa.Ops) :
    ∀ (l : List ℕ) (c : Cfg),
      (l.foldl (fun c i => Cfg.upd c ops i) c).t = c.t := by
  intro l
  induction l with
  | nil => intro c; rfl
  | cons b t ih =>
    intro c
    rw [List.foldl_cons, ih]
    rfl

theorem updAll_t (c : Cfg) (ops : Santa.Ops) : (c.updAll ops).t = c.t :=
  foldUpd_t ops (List.range c.n) c

theorem optimizeOne_inv (ops : Santa.Ops) (rng : Santa.Rng) (base : Cfg)
    (iters : ℕ) : CoordInv base (optimizeOne ops rng base iters) := by
  unfold optimizeOne
  have hbase : CoordInv base (base.updAll ops) := by
    intro i
    left
    rw [updAll_t]
    exact ⟨rfl, rfl⟩
  exact optLoop_inv ops rng iters iters _ _ _ 0 0 hbase hbase

end SG

namespace Santa

/-! ### The joint move at `n = 1` -/

theorem setX_y_eq (c : Cfg) (i : ℕ) (v : ℚ) : (c.setX i v).y = c.y := rfl

theorem setY_x_eq (c : Cfg) (i : ℕ) (v : ℚ) : (c.setY i v).x = c.x := rfl

theorem setX_x_self (c : Cfg) (i : ℕ) (v : ℚ) : (c.setX i v).x i = v :=
  Function.update_same ..

theorem setY_y_self (c : Cfg) (i : ℕ) (v : ℚ) : (c.setY i v).y i = v :=
  Function.update_same ..

theorem joint_chain_eq (ops : Ops) (c : Cfg) (A B A2 B2 : ℚ) :
    (((((c.setX 0 A).setY 0 B).setX 0 A2).setY 0 B2).upd ops 0).upd ops 0 =
      poke ops c 0 A2 B2 (c.a 0) := by
  simp [Cfg.setX, Cfg.setY, Cfg.upd, poke, Function.update_idem,
    Function.update_same, Function.update_eq_self]

theorem jointTent_eq (ops : Ops) (rng : Rng) (ms sc : ℚ) (cur : Cfg)
    (kr : ℕ) :
    jointTent ops rng ms sc cur kr =
      poke ops cur 0
        (cur.x 0 + (rng.rats kr - 0.5) * ms * sc * 0.5 +
          (rng.rats kr - 0.5) * ms * sc * 0.5)
        (cur.y 0 + (rng.rats (kr + 1) - 0.5) * ms * sc * 0.5 +
          (rng.rats (kr + 1) - 0.5) * ms * sc * 0.5)
        (cur.a 0) := rfl

theorem hasOvlPair_self_n1 (c : Cfg) (h : c.n = 1) :
    c.hasOvlPair 0 0 = overlap (c.pl 0) (c.pl 0) := by
  have h1 : List.range 1 = [0] := rfl
  simp [Cfg.hasOvlPair, h, h1]

theorem movePhase_n1_mt4 (ops : Ops) (rng : Rng) (ms rs sc : ℚ) (cur : Cfg)
    (ki kr : ℕ) (h4 : rng.ints ki % 8 = 4) (hn : cur.n = 1) :
    movePhase ops rng 1 ms rs sc cur ki kr =
      if overlap ((jointTent ops rng ms sc cur kr).pl 0)
          ((jointTent ops rng ms sc cur kr).pl 0) then
        ⟨poke ops (jointTent ops rng ms sc cur kr) 0 (cur.x 0) (cur.y 0)
          ((jointTent ops rng ms sc cur kr).a 0), false, ki + 2, kr + 2⟩
      else ⟨jointTent ops rng ms sc cur kr, true, ki + 2, kr + 2⟩ := by
  simp only [movePhase]
  rw [h4]
  rw [if_neg (by norm_num)]
  rw [if_neg (by norm_num)]
  rw [if_neg (by norm_num)]
  rw [if_neg (by norm_num)]
  simp only [moveJoint, Nat.mod_one]
  simp only [setX_y_eq, setY_x_eq, setX_x_self, setY_y_self]
  simp only [joint_chain_eq]
  rw [← jointTent_eq ops rng ms sc cur kr]
  rw [hasOvlPair_self_n1 _ (by rw [jointTent_eq, poke_n]; exact hn)]

/-! ### Claim theorems -/

/-- C2: in the Metropolis block of `sa_v3`, when the test rejects
(`delta ≥ 0` and the drawn uniform `u ≥ exp(-delta/T)`), the current
configuration is restored to the best one, the current side to the best side,
and `noImp` is incremented; rejection is never "stay at current". -/
theorem metropolis_reject_restarts_from_best (ops : Ops) (cur best : Cfg)
    (bs cs ns T : ℚ) (noImp : ℕ) (u : ℚ)
    (h1 : ¬ ns - cs < 0) (h2 : ¬ u < ops.exp (-(ns - cs) / T)) :
    mStep ops cur best bs cs ns T noImp u = ⟨best, best, bs, bs, noImp + 1⟩ := by
  simp only [mStep]
  rw [if_neg (not_or.mpr ⟨h1, h2⟩)]

/-- Witness for C2: a rejected move (`delta = 0`, `u = 0 ≥ exp ≡ 0` under the
witness oracle) restores `cur` from `best` and increments `noImp`. -/
theorem metropolis_reject_witness :
    mStep unitOps (emptyCfg 1) (emptyCfg 2) 3 4 4 1 7 0 =
      ⟨emptyCfg 2, emptyCfg 2, 3, 3, 8⟩ :=
  metropolis_reject_restarts_from_best unitOps (emptyCfg 1) (emptyCfg 2)
    3 4 4 1 7 0 (by norm_num) (by norm_num [unitOps])

/-- C4: `ls_v3` and `fractional_translation` never worsen the side of a
consistent configuration, and within every pass of either the tracked best
side is non-increasing. -/
theorem ls_ft_never_worsen (ops : Ops) (c : Cfg) (iter1 iter2 : ℕ)
    (hcon : Consistent ops c) :
    (ls_v3 ops c iter1).side ≤ c.side ∧
    (fractional_translation ops c iter2).side ≤ c.side ∧
    (∀ (n : ℕ) (best : Cfg) (bs : ℚ), (lsPass ops n best bs).2.1 ≤ bs) ∧
    (∀ (n : ℕ) (best : Cfg) (bs : ℚ), (ftPass ops n best bs).2.1 ≤ bs) :=
  ⟨ls_v3_side_le ops c iter1 hcon, ft_side_le ops c iter2 hcon,
    fun n best bs => lsPass_bs_le ops n best bs,
    fun n best bs => ftPass_bs_le ops n best bs⟩

/-- Witness for C4 at a consistent one-tree configuration. -/
theorem ls_ft_never_worsen_witness :
    (ls_v3 unitOps oneTree 2).side ≤ oneTree.side ∧
    (fractional_translation unitOps oneTree 2).side ≤ oneTree.side ∧
    (∀ (n : ℕ) (best : Cfg) (bs : ℚ),
      (lsPass unitOps n best bs).2.1 ≤ bs) ∧
    (∀ (n : ℕ) (best : Cfg) (bs : ℚ),
      (ftPass unitOps n best bs).2.1 ≤ bs) :=
  ls_ft_never_worsen unitOps oneTree 2 2 (fun _ => rfl)

/-- C5: `compress_cfg` is the identity whenever `steps ≤ 0` or
`factor ≥ 1`. -/
theorem compress_cfg_noop (ops : Ops) (fam : RngFam) (c : Cfg) (steps : ℤ)
    (factor : ℚ) (relax_iters : ℕ) (relax_stp : ℚ) (seed : ℕ)
    (h : steps ≤ 0 ∨ 1 ≤ factor) :
    compress_cfg ops fam c steps factor relax_iters relax_stp seed = c := by
  unfold compress_cfg
  rw [if_pos h]

/-- Witness for C5: `steps = 0` and `factor = 1` each make `compress_cfg` the
identity. -/
theorem compress_cfg_noop_witness :
    compress_cfg unitOps zeroFam twoTrees 0 (1/2) 3 (1/100) 5 = twoTrees ∧
    compress_cfg unitOps zeroFam twoTrees 5 1 3 (1/100) 5 = twoTrees :=
  ⟨compress_cfg_noop unitOps zeroFam twoTrees 0 (1/2) 3 (1/100) 5
      (Or.inl le_rfl),
    compress_cfg_noop unitOps zeroFam twoTrees 5 1 3 (1/100) 5
      (Or.inr le_rfl)⟩

/-- C8: the single-group tool writes its output if and only if the optimized
configuration has no overlap and is a strict improvement beyond `1e-12`. -/
theorem single_group_save_iff (cfg : ℕ → Option SG.Cfg) (targetN : ℕ)
    (c o : SG.Cfg) :
    (SG.mainTail cfg targetN c o).isSome = true ↔
      (o.anyOvl = false ∧ o.score < c.score - 1e-12) := by
  unfold SG.mainTail SG.saveCond
  by_cases h : (!o.anyOvl && decide (o.score < c.score - 1e-12)) = true
  · rw [if_pos h]
    simp only [Option.isSome_some, Bool.and_eq_true, Bool.not_eq_true',
      decide_eq_true_eq] at h ⊢
    exact ⟨fun _ => h, fun _ => trivial⟩
  · rw [if_neg h]
    simp only [Option.isSome_none, Bool.and_eq_true, Bool.not_eq_true',
      decide_eq_true_eq] at h ⊢
    exact ⟨fun hf => absurd hf (by norm_num), fun hc => absurd hc h⟩

/-- C10: every `perturb` of the single-group optimizer clamps the moved
pose's coordinates into `[-100, 100]`, and every configuration `optimizeOne`
returns keeps each pose either at its input coordinates or with both
coordinates inside `[-100, 100]`. -/
theorem perturb_clamps_optimizeOne_bounded (ops : Ops) (rng : Rng)
    (base : SG.Cfg) (iters : ℕ) (c : SG.Cfg) (ms angs : ℚ) (ki kr : ℕ) :
    SG.CoordInv base (SG.optimizeOne ops rng base iters) ∧
    (-100 ≤ ((SG.perturb ops rng c ms angs ki kr).1.t
        (rng.ints ki % c.n)).x ∧
      ((SG.perturb ops rng c ms angs ki kr).1.t (rng.ints ki % c.n)).x ≤ 100 ∧
      -100 ≤ ((SG.perturb ops rng c ms angs ki kr).1.t
        (rng.ints ki % c.n)).y ∧
      ((SG.perturb ops rng c ms angs ki kr).1.t (rng.ints ki % c.n)).y ≤ 100) := by
  refine ⟨SG.optimizeOne_inv ops rng base iters, ?_⟩
  rw [SG.perturb_t, Function.update_same]
  exact ⟨(SG.clamp_pair _).1, (SG.clamp_pair _).2, (SG.clamp_pair _).1,
    (SG.clamp_pair _).2⟩

/-- C1 (amended): under the derived-state invariant of §3 (cached polygons
consistent with their poses) and a feasible input, the optimizers preserve
feasibility: `sa_v3`, `ls_v3`, `fractional_translation` and `compress_cfg`
return overlap-free configurations, and a successful `random_init_cfg` is
overlap-free unconditionally.  The unamended claim (every input, infeasible
ones included) is refuted by the counterexample below. -/
theorem optimizers_preserve_feasibility (ops : Ops) (fam : RngFam) (c : Cfg)
    (iter1 : ℕ) (T0 Tm ms rs : ℚ) (seed1 : ℕ) (iter2 iter3 : ℕ)
    (steps : ℤ) (factor : ℚ) (relax_iters : ℕ) (relax_stp : ℚ) (seed2 : ℕ)
    (n : ℕ) (base_side side_scale : ℚ) (tries ma seed3 : ℕ)
    (hcon : Consistent ops c) (hf : c.anyOvl = false) :
    (sa_v3 ops fam c iter1 T0 Tm ms rs seed1).anyOvl = false ∧
    (ls_v3 ops c iter2).anyOvl = false ∧
    (fractional_translation ops c iter3).anyOvl = false ∧
    (compress_cfg ops fam c steps factor relax_iters relax_stp seed2).anyOvl
      = false ∧
    (∀ c', random_init_cfg ops fam n base_side side_scale tries ma seed3 =
      some c' → c'.anyOvl = false) :=
  ⟨sa_v3_feasible ops fam c iter1 T0 Tm ms rs seed1 hcon hf,
    ls_v3_feasible ops c iter2 hcon hf,
    ft_feasible ops c iter3 hcon hf,
    compress_cfg_feas ops fam c steps factor relax_iters relax_stp seed2 hf,
    fun c' h => random_init_cfg_feas ops fam n base_side side_scale tries ma
      seed3 c' h⟩

/-- Witness for C1 at a consistent, feasible one-tree configuration. -/
theorem optimizers_preserve_feasibility_witness :
    (sa_v3 unitOps zeroFam oneTree 1 1 1 0 0 0).anyOvl = false ∧
    (ls_v3 unitOps oneTree 1).anyOvl = false ∧
    (fractional_translation unitOps oneTree 1).anyOvl = false ∧
    (compress_cfg unitOps zeroFam oneTree 1 (1/2) 1 (1/100) 0).anyOvl
      = false ∧
    (∀ c', random_init_cfg unitOps zeroFam 1 1 1 1 1 0 = some c' →
      c'.anyOvl = false) :=
  optimizers_preserve_feasibility unitOps zeroFam oneTree 1 1 1 0 0 0 1 1
    1 (1/2) 1 (1/100) 0 1 1 1 1 1 0 (fun _ => rfl)
    (by with_unfolding_all decide)

set_option maxRecDepth 1000000 in
set_option maxHeartbeats 1000000 in
/-- Counterexample for C1: with zero local-search iterations, `ls_v3` returns
an infeasible input configuration unchanged, so its result has `anyOvl`
true.  The operators tolerate infeasible inputs but do not re-establish
feasibility for them. -/
theorem ls_v3_can_return_overlapping :
    (ls_v3 unitOps twoTrees 0).anyOvl = true := by
  with_unfolding_all decide

/-- C3: a placed polygon always overlaps itself, for every pose, whenever the
trigonometric oracle satisfies `cos² + sin² = 1` at the pose's angle (the
crossing test on edges 1-2 and 2-3 reduces to a rotation-invariant positive
cross product); and `overlap` is symmetric. -/
theorem overlap_self_and_comm (ops : Ops) (cx cy deg : ℚ)
    (h : ops.cos (deg * srcPI / 180) * ops.cos (deg * srcPI / 180) +
      ops.sin (deg * srcPI / 180) * ops.sin (deg * srcPI / 180) = 1) :
    overlap (getPoly ops cx cy deg) (getPoly ops cx cy deg) = true ∧
    ∀ a b : Poly, overlap a b = overlap b a :=
  ⟨overlap_self ops cx cy deg h, fun a b => overlap_comm a b⟩

/-- Witness for C3 at the origin pose, under the oracle that is exact at
angle 0 (`overlap(build(0,0,0), build(0,0,0)) = true`). -/
theorem overlap_self_and_comm_witness :
    overlap (getPoly unitOps 0 0 0) (getPoly unitOps 0 0 0) = true ∧
    ∀ a b : Poly, overlap a b = overlap b a :=
  overlap_self_and_comm unitOps 0 0 0 (by norm_num [unitOps])

/-- C7 (amended): the generation driver's loader is order-insensitive for
row lists with pairwise-distinct ids, writes row `NNN_i` with `i < N` to pose
`i`, ignores rows with `i ≥ N`, and loads a group from however many rows it
has.  The single-group loader is **not** order-insensitive: see the
counterexample. -/
theorem loadCSV_order_insensitive (ops : Ops) (rows rows' : List Row)
    (g : ℕ) (hp : rows.Perm rows') (hpw : rows.Pairwise rowKeyNe) :
    loadCSV ops rows g = loadCSV ops rows' g ∧
    (∀ (c : Cfg) (r : Row), g ≤ r.idx → applyRow g c r = c) ∧
    (∀ (c : Cfg) (r : Row), r.idx < g →
      (applyRow g c r).x r.idx = r.x ∧ (applyRow g c r).y r.idx = r.y ∧
        (applyRow g c r).a r.idx = r.deg) ∧
    ((rows.filter fun r => r.n = g) ≠ [] →
      (loadCSV ops rows g).isSome = true) :=
  ⟨loadCSV_perm ops hp hpw g,
    fun c r h => applyRow_skip g c r (not_lt.mpr h),
    fun c r h => applyRow_sets g c r h,
    fun h => loadCSV_isSome ops rows g h⟩

/-- Witness for C7: the two distinct-id rows of group 1 can be swapped
without changing the loaded configuration. -/
theorem loadCSV_order_insensitive_witness :
    loadCSV unitOps [rowA, rowB] 1 = loadCSV unitOps [rowB, rowA] 1 ∧
    (∀ (c : Cfg) (r : Row), 1 ≤ r.idx → applyRow 1 c r = c) ∧
    (∀ (c : Cfg) (r : Row), r.idx < 1 →
      (applyRow 1 c r).x r.idx = r.x ∧ (applyRow 1 c r).y r.idx = r.y ∧
        (applyRow 1 c r).a r.idx = r.deg) ∧
    (([rowA, rowB].filter fun r => r.n = 1) ≠ [] →
      (loadCSV unitOps [rowA, rowB] 1).isSome = true) :=
  loadCSV_order_insensitive unitOps [rowA, rowB] [rowB, rowA] 1
    (List.Perm.swap rowB rowA [])
    (by
      refine List.Pairwise.cons ?_ (List.pairwise_singleton rowKeyNe rowB)
      intro y hy
      rw [List.mem_singleton.mp hy]
      intro hc
      exact absurd hc.2 (by norm_num [rowA, rowB]))

set_option maxRecDepth 100000 in
/-- Counterexample for C7: the single-group loader assigns poses by row
arrival order (`int i = idx[g]++`), ignoring the index digits of the id, so
swapping the two rows of group 1 moves row `001_1`'s coordinates into
pose 0. -/
theorem sg_loadCSV_order_sensitive :
    ((SG.loadCSV unitOps [rowA, rowB] 1).map fun c => (c.t 0).x) = some 1 ∧
    ((SG.loadCSV unitOps [rowB, rowA] 1).map fun c => (c.t 0).x) = some 4 := by
  constructor
  · with_unfolding_all rfl
  · with_unfolding_all rfl

/-- C9: in `sa_v3` with `n = 1`, a drawn move type of 4 is not a no-op: the
swap guard `moveType == 4 && c.n > 1` fails and control falls through to the
joint-move branch, where `j = (i + 1) mod 1 = i = 0`, so the drawn
translation is added twice to polygon 0 and the feasibility check is
`hasOvlPair(0, 0)`, the polygon's overlap with itself. -/
theorem joint_fallthrough_n1 (ops : Ops) (rng : Rng) (ms rs sc : ℚ)
    (cur : Cfg) (ki kr : ℕ) (h4 : rng.ints ki % 8 = 4) (hn : cur.n = 1) :
    ((movePhase ops rng 1 ms rs sc cur ki kr).ok =
      !(overlap ((jointTent ops rng ms sc cur kr).pl 0)
        ((jointTent ops rng ms sc cur kr).pl 0))) ∧
    ((movePhase ops rng 1 ms rs sc cur ki kr).ok = true →
      (movePhase ops rng 1 ms rs sc cur ki kr).cur =
        jointTent ops rng ms sc cur kr) ∧
    (jointTent ops rng ms sc cur kr).x 0 =
      cur.x 0 + 2 * ((rng.rats kr - 0.5) * ms * sc * 0.5) ∧
    (jointTent ops rng ms sc cur kr).y 0 =
      cur.y 0 + 2 * ((rng.rats (kr + 1) - 0.5) * ms * sc * 0.5) ∧
    (movePhase ops rng 1 ms rs sc cur ki kr).ki = ki + 2 ∧
    (movePhase ops rng 1 ms rs sc cur ki kr).kr = kr + 2 := by
  have hx : (jointTent ops rng ms sc cur kr).x 0 =
      cur.x 0 + 2 * ((rng.rats kr - 0.5) * ms * sc * 0.5) := by
    rw [jointTent_eq, poke_x_same]
    ring
  have hy : (jointTent ops rng ms sc cur kr).y 0 =
      cur.y 0 + 2 * ((rng.rats (kr + 1) - 0.5) * ms * sc * 0.5) := by
    rw [jointTent_eq, poke_y_same]
    ring
  rw [movePhase_n1_mt4 ops rng ms rs sc cur ki kr h4 hn]
  by_cases hov : overlap ((jointTent ops rng ms sc cur kr).pl 0)
      ((jointTent ops rng ms sc cur kr).pl 0) = true
  · rw [if_pos hov, hov]
    exact ⟨rfl, fun hf => absurd hf (by simp), hx, hy, rfl, rfl⟩
  · have hov' : overlap ((jointTent ops rng ms sc cur kr).pl 0)
        ((jointTent ops rng ms sc cur kr).pl 0) = false := by
      cases hz : overlap ((jointTent ops rng ms sc cur kr).pl 0)
        ((jointTent ops rng ms sc cur kr).pl 0)
      · rfl
      · exact absurd hz hov
    rw [if_neg hov, hov']
    exact ⟨rfl, fun _ => rfl, hx, hy, rfl, rfl⟩

/-- Witness for C9: with every integer draw equal to 4 and one tree, the
dispatch reaches the joint branch and the check is the self-overlap of
polygon 0. -/
theorem joint_fallthrough_n1_witness :
    ((movePhase unitOps fourRng 1 0 0 0 oneTree 0 0).ok =
      !(overlap ((jointTent unitOps fourRng 0 0 oneTree 0).pl 0)
        ((jointTent unitOps fourRng 0 0 oneTree 0).pl 0))) ∧
    ((movePhase unitOps fourRng 1 0 0 0 oneTree 0 0).ok = true →
      (movePhase unitOps fourRng 1 0 0 0 oneTree 0 0).cur =
        jointTent unitOps fourRng 0 0 oneTree 0) ∧
    (jointTent unitOps fourRng 0 0 oneTree 0).x 0 =
      oneTree.x 0 + 2 * ((fourRng.rats 0 - 0.5) * 0 * 0 * 0.5) ∧
    (jointTent unitOps fourRng 0 0 oneTree 0).y 0 =
      oneTree.y 0 + 2 * ((fourRng.rats (0 + 1) - 0.5) * 0 * 0 * 0.5) ∧
    (movePhase unitOps fourRng 1 0 0 0 oneTree 0 0).ki = 0 + 2 ∧
    (movePhase unitOps fourRng 1 0 0 0 oneTree 0 0).kr = 0 + 2 :=
  joint_fallthrough_n1 unitOps fourRng 0 0 0 oneTree 0 0 rfl rfl

/-- C6: inside one `resolve_overlaps` pass, an overlapping pair `(i, j)` with
center distance `d ≥ 1e-6` (where the square-root oracle is exact:
`d·d = dx² + dy²`) has `i` moved by `+step` and `j` by `-step` along the unit
vector from `j` to `i`, and the squared center distance becomes exactly
`(d + 2·step)²`, a strict increase. -/
theorem resolve_pair_pushes_apart (ops : Ops) (rng : Rng) (stp : ℚ)
    (c : Cfg) (b : Bool) (kr i j : ℕ) (d : ℚ)
    (hdef : d = ops.sqrt ((c.x i - c.x j) * (c.x i - c.x j) +
      (c.y i - c.y j) * (c.y i - c.y j)))
    (hov : overlap (c.pl i) (c.pl j) = true)
    (hij : i ≠ j)
    (hstp : 0 < stp)
    (hd : ¬ d < 1e-6)
    (hsq : d * d = (c.x i - c.x j) * (c.x i - c.x j) +
      (c.y i - c.y j) * (c.y i - c.y j)) :
    (resolvePairStep ops rng stp (c, b, kr) i j).1.x i =
        c.x i + (c.x i - c.x j) / d * stp ∧
    (resolvePairStep ops rng stp (c, b, kr) i j).1.y i =
        c.y i + (c.y i - c.y j) / d * stp ∧
    (resolvePairStep ops rng stp (c, b, kr) i j).1.x j =
        c.x j - (c.x i - c.x j) / d * stp ∧
    (resolvePairStep ops rng stp (c, b, kr) i j).1.y j =
        c.y j - (c.y i - c.y j) / d * stp ∧
    ((resolvePairStep ops rng stp (c, b, kr) i j).1.x i -
          (resolvePairStep ops rng stp (c, b, kr) i j).1.x j) *
        ((resolvePairStep ops rng stp (c, b, kr) i j).1.x i -
          (resolvePairStep ops rng stp (c, b, kr) i j).1.x j) +
      ((resolvePairStep ops rng stp (c, b, kr) i j).1.y i -
          (resolvePairStep ops rng stp (c, b, kr) i j).1.y j) *
        ((resolvePairStep ops rng stp (c, b, kr) i j).1.y i -
          (resolvePairStep ops rng stp (c, b, kr) i j).1.y j) =
      (d + 2 * stp) * (d + 2 * stp) ∧
    d * d < (d + 2 * stp) * (d + 2 * stp) := by
  have hd0 : (0 : ℚ) < d := lt_of_lt_of_le (by norm_num) (not_lt.mp hd)
  have hdne : d ≠ 0 := ne_of_gt hd0
  have hxi : (resolvePairStep ops rng stp (c, b, kr) i j).1.x i =
      c.x i + (c.x i - c.x j) / d * stp := by
    simp only [resolvePairStep]
    rw [if_pos hov, ← hdef]
    simp only [if_neg hd]
    simp [Cfg.setX, Cfg.setY, Cfg.upd, Function.update_same,
      Function.update_noteq hij, Function.update_noteq (Ne.symm hij)]
  have hyi : (resolvePairStep ops rng stp (c, b, kr) i j).1.y i =
      c.y i + (c.y i - c.y j) / d * stp := by
    simp only [resolvePairStep]
    rw [if_pos hov, ← hdef]
    simp only [if_neg hd]
    simp [Cfg.setX, Cfg.setY, Cfg.upd, Function.update_same,
      Function.update_noteq hij, Function.update_noteq (Ne.symm hij)]
  have hxj : (resolvePairStep ops rng stp (c, b, kr) i j).1.x j =
      c.x j - (c.x i - c.x j) / d * stp := by
    simp only [resolvePairStep]
    rw [if_pos hov, ← hdef]
    simp only [if_neg hd]
    simp [Cfg.setX, Cfg.setY, Cfg.upd, Function.update_same,
      Function.update_noteq hij, Function.update_noteq (Ne.symm hij)]
  have hyj : (resolvePairStep ops rng stp (c, b, kr) i j).1.y j =
      c.y j - (c.y i - c.y j) / d * stp := by
    simp only [resolvePairStep]
    rw [if_pos hov, ← hdef]
    simp only [if_neg hd]
    simp [Cfg.setX, Cfg.setY, Cfg.upd, Function.update_same,
      Function.update_noteq hij, Function.update_noteq (Ne.symm hij)]
  refine ⟨hxi, hyi, hxj, hyj, ?_, ?_⟩
  · rw [hxi, hyi, hxj, hyj]
    field_simp
    linear_combination (-((d + 2 * stp) * (d + 2 * stp))) * hsq
  · nlinarith [hd0, hstp]

set_option maxRecDepth 1000000 in
set_option maxHeartbeats 1000000 in
/-- Witness for C6: the two overlapping trees at center distance `1/10`
(square-root oracle exact there) are pushed to squared distance
`(1/10 + 2·(1/2))²`. -/
theorem resolve_pair_pushes_apart_witness :
    (resolvePairStep sqrtWitOps zeroRng (1/2) (pairCfg, false, 0) 0 1).1.x 0 =
        pairCfg.x 0 + (pairCfg.x 0 - pairCfg.x 1) / (1/10) * (1/2) ∧
    (resolvePairStep sqrtWitOps zeroRng (1/2) (pairCfg, false, 0) 0 1).1.y 0 =
        pairCfg.y 0 + (pairCfg.y 0 - pairCfg.y 1) / (1/10) * (1/2) ∧
    (resolvePairStep sqrtWitOps zeroRng (1/2) (pairCfg, false, 0) 0 1).1.x 1 =
        pairCfg.x 1 - (pairCfg.x 0 - pairCfg.x 1) / (1/10) * (1/2) ∧
    (resolvePairStep sqrtWitOps zeroRng (1/2) (pairCfg, false, 0) 0 1).1.y 1 =
        pairCfg.y 1 - (pairCfg.y 0 - pairCfg.y 1) / (1/10) * (1/2) ∧
    ((resolvePairStep sqrtWitOps zeroRng (1/2) (pairCfg, false, 0) 0 1).1.x 0 -
          (resolvePairStep sqrtWitOps zeroRng (1/2) (pairCfg, false, 0) 0
            1).1.x 1) *
        ((resolvePairStep sqrtWitOps zeroRng (1/2) (pairCfg, false, 0) 0
            1).1.x 0 -
          (resolvePairStep sqrtWitOps zeroRng (1/2) (pairCfg, false, 0) 0
            1).1.x 1) +
      ((resolvePairStep sqrtWitOps zeroRng (1/2) (pairCfg, false, 0) 0
            1).1.y 0 -
          (resolvePairStep sqrtWitOps zeroRng (1/2) (pairCfg, false, 0) 0
            1).1.y 1) *
        ((resolvePairStep sqrtWitOps zeroRng (1/2) (pairCfg, false, 0) 0
            1).1.y 0 -
          (resolvePairStep sqrtWitOps zeroRng (1/2) (pairCfg, false, 0) 0
            1).1.y 1) =
      ((1:ℚ)/10 + 2 * (1/2)) * ((1:ℚ)/10 + 2 * (1/2)) ∧
    (1:ℚ)/10 * (1/10) < ((1:ℚ)/10 + 2 * (1/2)) * ((1:ℚ)/10 + 2 * (1/2)) :=
  resolve_pair_pushes_apart sqrtWitOps zeroRng (1/2) pairCfg false 0 0 1
    (1/10) (by with_unfolding_all decide) (by with_unfolding_all decide)
    (by decide) (by norm_num) (by with_unfolding_all decide)
    (by with_unfolding_all decide)

end Santa

